import Mathlib

/-!
Verification development for the standings computation in `GetLeagueData.py`
(repository FantasyFootball).

The script derives a per-team "median game" win/loss record from weekly
scores, combines it with the head-to-head matchup record, merges an external
week-1 results file into the snapshot rows via normalized-name / team-id
matching, and finally recomputes win percentage, league leader, games-behind
and rank.

Shallow embedding notes:
* Python floats are modelled by rationals; `round(x, k)` is modelled by exact
  round-half-to-even on rationals (`rnd`, `round2`, `round1`).
* Python dictionaries `teams_data[i]` become the structure `TeamRow`; object
  identity (`t is leader`) is modelled by list position, which is faithful
  because every row dictionary is freshly allocated.
* An external file row `wk` becomes the structure `ExtRow`.  The helper
  `find_wk_value` (exact key, then case-insensitive substring fallback) is a
  header-alias resolver; `ExtRow` stores each canonical field already
  resolved: `overall`/`matchup`/`median` are the values `find_wk_value`
  would return for the record fields (`none` when absent, so the call site
  default applies), `pf`/`pa` are the values after the `to_float` coercion
  (0 when absent), and `teamA` .. `teamE` are the values stored under the
  five name keys `"Team"`, `"team"`, `"team_name"`, `"Team Name"`,
  `"teamName"`.  `teamId` is the str-rendered value of the `"team_id"` key,
  `none` when the key is absent (a present `None` value is not modelled).
* The median tally dictionary is modelled as a total function from team id;
  the Python code raises `KeyError` for a box-score team that is not a
  league team, so all inputs considered keep box teams inside the league.
* Python `sorted(..., reverse=True)` is a stable descending sort; any stable
  sort computes the same list, and the model uses `List.insertionSort`
  (which is stable) with the reversed key order.
-/

/-! ## String helpers (GetLeagueData.py lines 20-34) -/

/-- Numeric value of an ASCII digit character. -/
def digitVal (c : Char) : ℕ := c.toNat - 48

/-- Worker for `re.findall(r"\d+", s)` followed by `int(...)`: scans the
characters, accumulating the value of the current maximal digit run. -/
def digitRunsAux : List Char → Option ℕ → List ℕ
  | [], none => []
  | [], some n => [n]
  | c :: cs, none =>
    if c.isDigit then digitRunsAux cs (some (digitVal c)) else digitRunsAux cs none
  | c :: cs, some n =>
    if c.isDigit then digitRunsAux cs (some (n * 10 + digitVal c))
    else n :: digitRunsAux cs none

/-- The integer values of the maximal digit runs of a character list, in
order: `[int(m) for m in re.findall(r"\d+", s)]`. -/
def digitRuns (l : List Char) : List ℕ := digitRunsAux l none

/-- `record_to_list` (line 23): the first up-to-three integers embedded in
the string, padded with zeros to length 3. -/
def record_to_list (s : String) : List ℕ := (digitRuns s.data ++ [0, 0, 0]).take 3

/-- Decimal rendering of a natural number (fuel-driven so that it is
structurally recursive and kernel-evaluable); fuel `n + 1` is always
sufficient for input `n`. -/
def natCharsAux : ℕ → ℕ → List Char
  | 0, _ => []
  | fuel + 1, n =>
    if n < 10 then [Nat.digitChar n]
    else natCharsAux fuel (n / 10) ++ [Nat.digitChar (n % 10)]

/-- Decimal digit characters of `n`, most significant first (Python
`str(n)` for a natural number). -/
def natChars (n : ℕ) : List Char := natCharsAux (n + 1) n

/-- Python `str(n)` for a natural number. -/
def natStr (n : ℕ) : String := String.mk (natChars n)

/-- Value accumulated by scanning a digit run, starting from `a`. -/
def valAux (l : List Char) (a : ℕ) : ℕ := l.foldl (fun acc c => acc * 10 + digitVal c) a

/-- `"-".join(...)` on character lists. -/
def joinDash : List (List Char) → List Char
  | [] => []
  | [x] => x
  | x :: y :: ys => x ++ '-' :: joinDash (y :: ys)

/-- `list_to_record` (line 27): `"-".join(map(str, lst))`. -/
def list_to_record (lst : List ℕ) : String := String.mk (joinDash (lst.map natChars))

/-- `normalize_name` (line 20): lower-case, then keep only ASCII lower-case
letters and digits (the `.strip()` is subsumed by the filter). -/
def normalize_name (s : String) : String :=
  String.mk ((s.data.map Char.toLower).filter fun c =>
    ('a' ≤ c && c ≤ 'z') || ('0' ≤ c && c ≤ '9'))

/-- `to_float` (line 30) on an already-numeric value is the identity; the
exception branch is reached only for non-numeric input, which the model
represents by the resolved-field defaults of `ExtRow`. -/
def to_float (q : ℚ) : ℚ := q

/-- `[a + b for a, b in zip(x, y)]` on natural-number lists. -/
def zipAdd (a b : List ℕ) : List ℕ := List.zipWith (· + ·) a b

/-- Component sum of a record string, after re-parsing it. -/
def sum3 (s : String) : ℕ := (record_to_list s).sum

/-! ## Rounding (Python `round`, half-to-even, modelled exactly on ℚ) -/

/-- Round a rational to the nearest integer, ties to the even integer. -/
def rnd (q : ℚ) : ℤ :=
  let f := q.floor
  if q - (f : ℚ) < 1 / 2 then f
  else if (1 : ℚ) / 2 < q - (f : ℚ) then f + 1
  else if f % 2 = 0 then f else f + 1

/-- Python `round(q, 2)`. -/
def round2 (q : ℚ) : ℚ := (rnd (q * 100) : ℚ) / 100

/-- Python `round(q, 1)`. -/
def round1 (q : ℚ) : ℚ := (rnd (q * 10) : ℚ) / 10

/-! ## Median scorer (`get_median_records`, lines 54-81) -/

/-- One box score: team references are team ids, `none` standing for a
missing team object; scores are `none` when not yet available. -/
structure Box where
  home_team : Option ℕ
  home_score : Option ℚ
  away_team : Option ℕ
  away_score : Option ℚ
deriving DecidableEq

/-- The per-team data the script reads off one `league.teams` entry. -/
structure ApiTeam where
  team_id : ℕ
  standing : ℤ
  team_name : String
  wins : ℕ
  losses : ℕ
  ties : ℕ
  points_for : ℚ
  points_against : ℚ
  acquisition_budget_spent : ℚ
  logo_url : Option String
deriving DecidableEq

/-- The league object: teams, current week, and the per-week box-score
accessor; `none` models the `except Exception: continue` branch (week not
yet published). -/
structure LeagueM where
  teams : List ApiTeam
  current_week : ℕ
  box_scores : ℕ → Option (List Box)

/-- `median_records`: team id to (wins, losses). -/
abbrev Tally := ℕ → ℕ × ℕ

/-- The initial tally `{t.team_id: {"wins": 0, "losses": 0} ...}`. -/
def zeroTally : Tally := fun _ => (0, 0)

/-- `[s for b in box_scores for s in (b.home_score, b.away_score) if s is not None]`. -/
def scoresOf (boxes : List Box) : List ℚ :=
  (boxes.map fun b => [b.home_score, b.away_score].filterMap id).flatten

/-- Lines 70-72: sort ascending, then take the middle value (odd count) or
the mean of the two middle values (even count). -/
def medianOf (scores : List ℚ) : ℚ :=
  let sorted := scores.insertionSort (· ≤ ·)
  let n := sorted.length
  let mid := n / 2
  if n % 2 = 0 then (sorted.getD (mid - 1) 0 + sorted.getD mid 0) / 2
  else sorted.getD mid 0

/-- Lines 75-79 for one `(team, score)` side: skip when either is `None`,
otherwise increment `"wins"` when `score >= median`, else `"losses"`. -/
def creditSide (median : ℚ) (tally : Tally) (team : Option ℕ) (score : Option ℚ) : Tally :=
  match team, score with
  | some tid, some s =>
    fun id =>
      if id = tid then
        if median ≤ s then ((tally tid).1 + 1, (tally tid).2)
        else ((tally tid).1, (tally tid).2 + 1)
      else tally id
  | _, _ => tally

/-- The crediting loop over all boxes of one week (home side first). -/
def creditBoxes (median : ℚ) (tally : Tally) (boxes : List Box) : Tally :=
  boxes.foldl
    (fun t b => creditSide median (creditSide median t b.home_team b.home_score)
      b.away_team b.away_score)
    tally

/-- The body of the week loop: skip the week when no score is available,
otherwise credit every non-null side against the week median. -/
def processWeek (tally : Tally) (boxes : List Box) : Tally :=
  let scores := scoresOf boxes
  if scores = [] then tally
  else creditBoxes (medianOf scores) tally boxes

/-- `range(1, min(current_week + 1, 14))` (lines 56-59). -/
def processedWeeks (cw : ℕ) : List ℕ := List.range' 1 (min (cw + 1) 14 - 1)

/-- One iteration of the week loop, including the `try`/`except` skip. -/
def weekStep (l : LeagueM) (tally : Tally) (week : ℕ) : Tally :=
  match l.box_scores week with
  | none => tally
  | some boxes => processWeek tally boxes

/-- `get_median_records` (lines 54-81). -/
def get_median_records (l : LeagueM) : Tally :=
  (processedWeeks l.current_week).foldl (weekStep l) zeroTally

/-! ## Snapshot rows (`teams_data`, lines 89-108) -/

/-- The `"GB"` field: the `"-"` placeholder, the integer sentinel written to
the leader, or the computed float. -/
inductive GBVal where
  | dash : GBVal
  | int (n : ℤ) : GBVal
  | num (q : ℚ) : GBVal
deriving DecidableEq

/-- One `teams_data` row. -/
structure TeamRow where
  team_id : Option String
  rank : Option ℤ
  name : String
  overall : String
  matchup : String
  median : String
  gb : GBVal
  winp : Option ℚ
  pf : ℚ
  pa : ℚ
  budget : ℚ
  logo : Option String
deriving DecidableEq

/-- Placeholder row used only as a `getD` default at indices proved in
range. -/
def dummyRow : TeamRow :=
  { team_id := none, rank := none, name := "", overall := "0-0-0", matchup := "0-0-0",
    median := "0-0-0", gb := GBVal.dash, winp := none, pf := 0, pa := 0, budget := 0,
    logo := none }

/-- A row with its rank forgotten (used to state that a pass changes nothing
but the rank field). -/
def eraseRank (t : TeamRow) : TeamRow := { t with rank := none }

/-- Lines 90-108: build one snapshot row from an API team and the median
tally. -/
def buildRow (med : Tally) (t : ApiTeam) : TeamRow :=
  let wl_record := list_to_record [t.wins, t.losses, t.ties]
  let med_str := list_to_record [(med t.team_id).1, (med t.team_id).2, 0]
  let overall := zipAdd (record_to_list wl_record) (record_to_list med_str)
  { team_id := some (natStr t.team_id)
    rank := some t.standing
    name := t.team_name
    overall := list_to_record overall
    matchup := wl_record
    median := med_str
    gb := GBVal.dash
    winp := none
    pf := round2 (to_float t.points_for)
    pa := round2 (to_float t.points_against)
    budget := 100 - t.acquisition_budget_spent
    logo := t.logo_url }

/-- The `teams_data` construction loop. -/
def buildRows (med : Tally) (teams : List ApiTeam) : List TeamRow := teams.map (buildRow med)

/-! ## External merge (lines 110-209) -/

/-- One row of the external week-1 file, with header aliases already
resolved (see the file header). -/
structure ExtRow where
  teamA : Option String
  teamB : Option String
  teamC : Option String
  teamD : Option String
  teamE : Option String
  teamId : Option String
  overall : Option String
  matchup : Option String
  median : Option String
  pf : ℚ
  pa : ℚ
  budget : Option ℚ
  logo : Option String
deriving DecidableEq

/-- Python truthiness of an optional string: `None` and `""` are falsy. -/
def truthyStr : Option String → Option String
  | some s => if s = "" then none else some s
  | none => none

/-- Lines 122-130: the candidate keys of an external row, in construction
order: the normalized truthy name values, then the normalized team id when
present and not empty. -/
def candidates (wk : ExtRow) : List String :=
  (([wk.teamA, wk.teamB, wk.teamC, wk.teamD, wk.teamE].filterMap truthyStr).map
    normalize_name) ++
  (match wk.teamId with
   | some s => if s = "" then [] else [normalize_name s]
   | none => [])

/-- Pointwise dictionary update `lookup[c] = wk`. -/
def lookupUpdate (m : String → Option ExtRow) (c : String) (r : ExtRow) :
    String → Option ExtRow :=
  fun k => if k = c then some r else m k

/-- Lines 118-136: `week1_lookup`, every candidate key of every row mapped
to that row, later rows overwriting earlier ones. -/
def buildLookup (rows : List ExtRow) : String → Option ExtRow :=
  rows.foldl (fun m wk => (candidates wk).foldl (fun m2 c => lookupUpdate m2 c wk) m)
    (fun _ => none)

/-- Lines 141-145: look a snapshot row up by normalized name, then by
normalized team id. -/
def findWk (lookup : String → Option ExtRow) (t : TeamRow) : Option ExtRow :=
  match lookup (normalize_name t.name) with
  | some wk => some wk
  | none =>
    match t.team_id with
    | some tid => lookup (normalize_name tid)
    | none => none

/-- Lines 162-166 for one record field: parse both sides, add element-wise,
re-render; an absent external field defaults to `"0-0-0"`. -/
def combineField (existing : String) (ext : Option String) : String :=
  list_to_record (zipAdd (record_to_list existing) (record_to_list (ext.getD "0-0-0")))

/-- Lines 153-172: merge one matched external row into a snapshot row. -/
def applyMerge (team : TeamRow) (wk : ExtRow) : TeamRow :=
  { team with
    overall := combineField team.overall wk.overall
    matchup := combineField team.matchup wk.matchup
    median := combineField team.median wk.median
    pf := round2 (to_float team.pf + to_float wk.pf)
    pa := round2 (to_float team.pa + to_float wk.pa) }

/-- The whole merge-loop body for one snapshot row. -/
def mergeRow (lookup : String → Option ExtRow) (t : TeamRow) : TeamRow :=
  match findWk lookup t with
  | none => t
  | some wk => applyMerge t wk

/-- Line 151: `matched_wk_keys` after the merge loop — the normalized name
of every snapshot row for which a `wk` was found (NOT the key of the
external row it matched). -/
def matchedKeys (lookup : String → Option ExtRow) (rows : List TeamRow) : List String :=
  rows.filterMap fun t => (findWk lookup t).map fun _ => normalize_name t.name

/-- Lines 177-184: the primary key the append loop re-derives for an
external row: the first truthy name value, else the team id when the key is
present. -/
def primaryOf (wk : ExtRow) : Option String :=
  match truthyStr wk.teamA <|> truthyStr wk.teamB <|> truthyStr wk.teamC <|>
      truthyStr wk.teamD <|> truthyStr wk.teamE with
  | some v => some (normalize_name v)
  | none => wk.teamId.map normalize_name

/-- Lines 196-208: the minimal snapshot row built from an unmatched external
row. -/
def newRow (wk : ExtRow) : TeamRow :=
  { team_id := wk.teamId
    rank := none
    name := (truthyStr wk.teamA <|> truthyStr wk.teamB <|> truthyStr wk.teamC).getD "Unknown"
    overall := wk.overall.getD "0-0-0"
    matchup := wk.matchup.getD "0-0-0"
    median := wk.median.getD "0-0-0"
    gb := GBVal.dash
    winp := none
    pf := round2 (to_float wk.pf)
    pa := round2 (to_float wk.pa)
    budget := wk.budget.getD 100
    logo := wk.logo }

/-- Lines 174-209: the append loop over the external file, threading the
`matched_wk_keys` set. -/
def appendLoop : List ExtRow → List String → List TeamRow
  | [], _ => []
  | wk :: rest, matched =>
    match primaryOf wk with
    | none => appendLoop rest matched
    | some p =>
      if p ∈ matched then appendLoop rest matched
      else newRow wk :: appendLoop rest (p :: matched)

/-- Lines 110-209: the whole external merge, mutation modelled by mapping
the merge over the snapshot rows and appending the unmatched external
rows. -/
def mergePhase (rows : List TeamRow) (ext : List ExtRow) : List TeamRow :=
  let lookup := buildLookup ext
  rows.map (mergeRow lookup) ++ appendLoop ext (matchedKeys lookup rows)

/-! ## Standings finalizer (lines 211-241) -/

/-- Lines 212-215: recompute `"Win %"` from the overall record. -/
def setWinPct (t : TeamRow) : TeamRow :=
  let r := record_to_list t.overall
  let w := r.getD 0 0
  let lo := r.getD 1 0
  let ti := r.getD 2 0
  let total := w + lo + ti
  let v : ℚ := if total = 0 then 0 else round2 (((w : ℚ) + (ti : ℚ) / 2) / (total : ℚ))
  { t with winp := some v }

/-- The win-percentage loop. -/
def winPctPhase (rows : List TeamRow) : List TeamRow := rows.map setWinPct

/-- The `max` key of line 225: `(overall wins, PF, -overall losses)`,
compared lexicographically as Python compares tuples. -/
def rowKey (t : TeamRow) : ℕ ×ₗ (ℚ ×ₗ ℤ) :=
  toLex ((record_to_list t.overall).getD 0 0,
    toLex (t.pf, -((record_to_list t.overall).getD 1 0 : ℤ)))

/-- Python `max` with a key: fold keeping the first element whose key is not
exceeded later; the position accumulator models object identity. -/
def bestAux : List TeamRow → TeamRow × ℕ → ℕ → TeamRow × ℕ
  | [], b, _ => b
  | t :: ts, b, i => bestAux ts (if rowKey b.1 < rowKey t then (t, i) else b) (i + 1)

/-- The leader row and its position (lines 223-226); `max` on an empty list
raises in Python, so all theorems assume a nonempty row list. -/
def leaderPair : List TeamRow → TeamRow × ℕ
  | [] => (dummyRow, 0)
  | t :: ts => bestAux ts (t, 0) 1

/-- Positional map used to model the `t is leader` test by position. -/
def mapIdxFrom (f : ℕ → TeamRow → TeamRow) : ℕ → List TeamRow → List TeamRow
  | _, [] => []
  | i, t :: ts => f i t :: mapIdxFrom f (i + 1) ts

/-- Lines 229-231 for one row: the integer 0 for the leader object, else
`round(((lw - w) + (l - ll)) / 2, 1)`. -/
def gbUpdate (li : ℕ) (lw ll : ℕ) (i : ℕ) (t : TeamRow) : TeamRow :=
  if i = li then { t with gb := GBVal.int 0 }
  else
    let w := (record_to_list t.overall).getD 0 0
    let lo := (record_to_list t.overall).getD 1 0
    { t with gb :=
        GBVal.num (round1 (((((lw : ℤ) - (w : ℤ)) + ((lo : ℤ) - (ll : ℤ)) : ℤ) : ℚ) / 2)) }

/-- Lines 223-231: leader determination and the games-behind loop. -/
def recomputeGB (rows : List TeamRow) : List TeamRow :=
  match rows with
  | [] => []
  | _ :: _ =>
    let p := leaderPair rows
    let lw := (record_to_list p.1.overall).getD 0 0
    let ll := (record_to_list p.1.overall).getD 1 0
    mapIdxFrom (gbUpdate p.2 lw ll) 0 rows

/-- The sort key of line 234: `(overall wins, PF)`. -/
def rankKey (t : TeamRow) : ℕ ×ₗ ℚ :=
  toLex ((record_to_list t.overall).getD 0 0, t.pf)

/-- `a` may precede `b` in the descending stable sort exactly when
`rankKey b ≤ rankKey a`. -/
def rankGE (a b : TeamRow) : Prop := rankKey b ≤ rankKey a

instance : DecidableRel rankGE := fun a b =>
  inferInstanceAs (Decidable (rankKey b ≤ rankKey a))

instance : IsTotal TeamRow rankGE :=
  ⟨fun a b => (le_total (rankKey a) (rankKey b)).symm⟩

instance : IsTrans TeamRow rankGE :=
  ⟨fun _ _ _ h1 h2 => le_trans h2 h1⟩

/-- `sorted(teams_data, key=(wins, PF), reverse=True)` — a stable descending
sort (see the file header). -/
def sortRows (rows : List TeamRow) : List TeamRow := rows.insertionSort rankGE

/-- Lines 238-241: write a rank onto the FIRST row whose normalized name
matches, leaving everything else unchanged. -/
def setRankFirst : List TeamRow → String → ℤ → List TeamRow
  | [], _, _ => []
  | t :: ts, nm, rk =>
    if normalize_name t.name = nm then { t with rank := some rk } :: ts
    else t :: setRankFirst ts nm rk

/-- Lines 235-241: `for i, t in enumerate(teams_sorted, 1)`. -/
def rankLoop : List TeamRow → ℤ → List TeamRow → List TeamRow
  | [], _, acc => acc
  | t :: ts, i, acc => rankLoop ts (i + 1) (setRankFirst acc (normalize_name t.name) i)

/-- Lines 233-241: the whole re-rank pass. -/
def assignRanks (rows : List TeamRow) : List TeamRow := rankLoop (sortRows rows) 1 rows

/-- Position of the first row of `S` whose normalized name is `nm`. -/
def nameIdx (S : List TeamRow) (nm : String) : Option ℕ :=
  S.findIdx? (fun s => normalize_name s.name == nm)

/-- Closed form of the rank pass when normalized names are distinct: each
row receives `i` plus the position of its name in `S`. -/
def rankFromList (S : List TeamRow) (i : ℤ) (t : TeamRow) : TeamRow :=
  match nameIdx S (normalize_name t.name) with
  | some j => { t with rank := some (i + (j : ℤ)) }
  | none => t

/-- Lines 211-241: the standings finalizer. -/
def finalize (rows : List TeamRow) : List TeamRow :=
  assignRanks (recomputeGB (winPctPhase rows))

/-! ## Derived predicates used by the claims -/

/-- The TeamSnapshot invariant of the spec: the component sum of the overall
record equals the sum of the matchup and median component sums. -/
def rowInv (t : TeamRow) : Prop := sum3 t.overall = sum3 t.matchup + sum3 t.median

/-- The corresponding well-formedness of an external row: its own (resolved,
defaulted) record fields satisfy the same component-sum relation. -/
def extInv (wk : ExtRow) : Prop :=
  sum3 (wk.overall.getD "0-0-0") =
    sum3 (wk.matchup.getD "0-0-0") + sum3 (wk.median.getD "0-0-0")

instance (t : TeamRow) : Decidable (rowInv t) :=
  inferInstanceAs (Decidable (sum3 t.overall = sum3 t.matchup + sum3 t.median))

instance (wk : ExtRow) : Decidable (extInv wk) :=
  inferInstanceAs (Decidable (sum3 (wk.overall.getD "0-0-0") =
    sum3 (wk.matchup.getD "0-0-0") + sum3 (wk.median.getD "0-0-0")))

/-- Whether `k` is a candidate key of the external row `r`. -/
def hasKeyB (k : String) (r : ExtRow) : Bool := decide (k ∈ candidates r)

/-- Two external rows with no candidate key in common. -/
def keysDisjoint (a b : ExtRow) : Prop := ∀ k ∈ candidates a, k ∈ candidates b → False

instance (a b : ExtRow) : Decidable (keysDisjoint a b) :=
  inferInstanceAs (Decidable (∀ k ∈ candidates a, k ∈ candidates b → False))

/-- Pairwise disjoint candidate-key sets across an external file. -/
def DisjointKeys (ext : List ExtRow) : Prop := ext.Pairwise keysDisjoint

instance (ext : List ExtRow) : Decidable (DisjointKeys ext) :=
  inferInstanceAs (Decidable (ext.Pairwise keysDisjoint))

/-- Number of non-null appearances of team `tid` on a side of `boxes`. -/
def sideCount (tid : ℕ) (team : Option ℕ) (score : Option ℚ) : ℕ :=
  match team, score with
  | some t, some _ => if t = tid then 1 else 0
  | _, _ => 0

/-- Total count of (box, side) pairs crediting team `tid` in one week. -/
def appearCount (tid : ℕ) (boxes : List Box) : ℕ :=
  (boxes.map fun b =>
    sideCount tid b.home_team b.home_score + sideCount tid b.away_team b.away_score).sum

/-- The number of tally increments week `w` contributes to team `tid`. -/
def weekContrib (l : LeagueM) (tid : ℕ) (w : ℕ) : ℕ :=
  match l.box_scores w with
  | none => 0
  | some boxes => if scoresOf boxes = [] then 0 else appearCount tid boxes

/-- Modelled from the claim wording of C8 (spec side, for comparison only):
the number of processed, non-empty weeks in which team `tid` had at least
one non-null score. -/
def weeksWithScore (l : LeagueM) (tid : ℕ) : ℕ :=
  ((processedWeeks l.current_week).filter fun w =>
    match l.box_scores w with
    | none => false
    | some boxes => decide (scoresOf boxes ≠ [] ∧ appearCount tid boxes ≠ 0)).length

/-- Modelled from the claim wording of C3 (spec side, for comparison only):
weeks from 1 up to the current week inclusive, bounded to at most 14
weeks. -/
def claimedWeeksC3 (cw : ℕ) : List ℕ := List.range' 1 (min cw 14)

/-- The exact games-behind value `((lw - w) + (lo - ll)) / 2` as a
rational. -/
def gbFormula (lw ll w lo : ℕ) : ℚ :=
  ((((lw : ℤ) - (w : ℤ)) + ((lo : ℤ) - (ll : ℤ)) : ℤ) : ℚ) / 2

/-- Claim C6, after finalization: the selected leader maximizes
`(overall wins, PF, -overall losses)`, its games-behind is the integer 0,
and every other row receives exactly the formula value (the 1-decimal
rounding is exact on half-integers, so no clamping or distortion occurs). -/
def LeaderGBProp (rows : List TeamRow) : Prop :=
  (∀ x ∈ rows, rowKey x ≤ rowKey (leaderPair rows).1) ∧
  ((finalize rows).getD (leaderPair rows).2 dummyRow).gb = GBVal.int 0 ∧
  ∀ i, i < rows.length → i ≠ (leaderPair rows).2 →
    ((finalize rows).getD i dummyRow).gb =
      GBVal.num (gbFormula
        ((record_to_list (leaderPair rows).1.overall).getD 0 0)
        ((record_to_list (leaderPair rows).1.overall).getD 1 0)
        ((record_to_list (rows.getD i dummyRow).overall).getD 0 0)
        ((record_to_list (rows.getD i dummyRow).overall).getD 1 0))

/-- Claim C9: exactly one row carries the integer-0 games-behind sentinel,
and every non-leader row whose overall wins and losses equal the leader's
carries the float `0` computed by the formula instead. -/
def LeaderUniqueProp (rows : List TeamRow) : Prop :=
  (((finalize rows).map (·.gb)).count (GBVal.int 0) = 1) ∧
  ∀ i, i < rows.length → i ≠ (leaderPair rows).2 →
    (record_to_list (rows.getD i dummyRow).overall).getD 0 0 =
        (record_to_list (leaderPair rows).1.overall).getD 0 0 →
      (record_to_list (rows.getD i dummyRow).overall).getD 1 0 =
          (record_to_list (leaderPair rows).1.overall).getD 1 0 →
        ((finalize rows).getD i dummyRow).gb = GBVal.num 0

/-- Claim C4 (amended with distinct normalized names): the rank pass equals
the closed form `rankFromList`, changes nothing but ranks, assigns exactly
the ranks 1..N, and the sorted list is the descending (wins, PF) ordering
of the rows. -/
def RankProp (rows : List TeamRow) : Prop :=
  assignRanks rows = rows.map (rankFromList (sortRows rows) 1) ∧
  (assignRanks rows).map eraseRank = rows.map eraseRank ∧
  List.Perm ((assignRanks rows).map (·.rank))
    ((List.range' 1 rows.length).map fun n : ℕ => some (n : ℤ)) ∧
  List.Perm (sortRows rows) rows ∧
  (sortRows rows).Pairwise rankGE

/-- Claim C5 (amended with pairwise-disjoint candidate keys): permuting the
external file leaves every original snapshot row's merged value unchanged,
and the appended block of each run is a file-order selection of its own
external input. -/
def MergePermProp (rows : List TeamRow) (ext ext2 : List ExtRow) : Prop :=
  (mergePhase rows ext).take rows.length = (mergePhase rows ext2).take rows.length ∧
  (∃ sub : List ExtRow, sub.Sublist ext ∧
    (mergePhase rows ext).drop rows.length = sub.map newRow) ∧
  (∃ sub : List ExtRow, sub.Sublist ext2 ∧
    (mergePhase rows ext2).drop rows.length = sub.map newRow)

/-! ## Concrete inputs for counterexamples and witnesses -/

/-- An all-zero API team named Foo with id 7. -/
def apiFoo : ApiTeam :=
  { team_id := 7, standing := 5, team_name := "Foo", wins := 0, losses := 0, ties := 0,
    points_for := 0, points_against := 0, acquisition_budget_spent := 0, logo_url := none }

/-- An external row that matches nothing by name but carries an overall
record that is not the sum of its (absent) matchup and median records. -/
def extBadOverall : ExtRow :=
  { teamA := some "Foo", teamB := none, teamC := none, teamD := none, teamE := none,
    teamId := none, overall := some "1-0-0", matchup := none, median := none,
    pf := 0, pa := 0, budget := none, logo := none }

/-- An external row addressed only by team id 7, carrying 10 points-for. -/
def extId7 : ExtRow :=
  { teamA := none, teamB := none, teamC := none, teamD := none, teamE := none,
    teamId := some "7", overall := none, matchup := none, median := none,
    pf := 10, pa := 0, budget := none, logo := none }

/-- A well-formed external row for Foo: overall 2-1-0 = matchup 1-1-0 plus
median 1-0-0. -/
def extGoodFoo : ExtRow :=
  { teamA := some "Foo", teamB := none, teamC := none, teamD := none, teamE := none,
    teamId := none, overall := some "2-1-0", matchup := some "1-1-0",
    median := some "1-0-0", pf := 12, pa := 8, budget := none, logo := none }

/-- External row keyed "Foo" with 1 point-for. -/
def extFoo1 : ExtRow :=
  { teamA := some "Foo", teamB := none, teamC := none, teamD := none, teamE := none,
    teamId := none, overall := none, matchup := none, median := none,
    pf := 1, pa := 0, budget := none, logo := none }

/-- External row keyed "Foo" with 2 points-for. -/
def extFoo2 : ExtRow :=
  { teamA := some "Foo", teamB := none, teamC := none, teamD := none, teamE := none,
    teamId := none, overall := none, matchup := none, median := none,
    pf := 2, pa := 0, budget := none, logo := none }

/-- External row keyed "Bar". -/
def extBar : ExtRow :=
  { teamA := some "Bar", teamB := none, teamC := none, teamD := none, teamE := none,
    teamId := none, overall := some "1-0-0", matchup := some "1-0-0", median := some "0-0-0",
    pf := 3, pa := 0, budget := none, logo := none }

/-- A league whose week 14 has a published score for team 1 and whose other
weeks are unavailable, with current week 14. -/
def leagueWeek14 : LeagueM :=
  { teams := [apiFoo]
    current_week := 14
    box_scores := fun w =>
      if w = 14 then some [{ home_team := some 1, home_score := some 10,
                             away_team := none, away_score := none }]
      else none }

/-- A league with one week in which its only team (Foo, id 7) appears on
both sides of the same box with non-null scores. -/
def leagueDup : LeagueM :=
  { teams := [apiFoo]
    current_week := 1
    box_scores := fun w =>
      if w = 1 then some [{ home_team := some 7, home_score := some 5,
                            away_team := some 7, away_score := some 5 }]
      else none }

/-- One box in which two distinct teams both score 10. -/
def boxesEq : List Box :=
  [{ home_team := some 1, home_score := some 10, away_team := some 2, away_score := some 10 }]

/-- Two rows whose names normalize identically ("A" and "a"). -/
def rowA0 : TeamRow :=
  { team_id := some "1", rank := some 7, name := "A", overall := "0-1-0",
    matchup := "0-1-0", median := "0-0-0", gb := GBVal.dash, winp := none,
    pf := 0, pa := 0, budget := 100, logo := none }

/-- Second row with the same normalized name and one win. -/
def rowA1 : TeamRow :=
  { team_id := some "2", rank := some 8, name := "a", overall := "1-0-0",
    matchup := "1-0-0", median := "0-0-0", gb := GBVal.dash, winp := none,
    pf := 5, pa := 0, budget := 100, logo := none }

/-- A plain row named Alice with two overall wins. -/
def rowAlice : TeamRow :=
  { team_id := some "1", rank := some 2, name := "Alice", overall := "2-1-0",
    matchup := "1-1-0", median := "1-0-0", gb := GBVal.dash, winp := none,
    pf := 50, pa := 40, budget := 100, logo := none }

/-- A plain row named Bob with one overall win. -/
def rowBob : TeamRow :=
  { team_id := some "2", rank := some 1, name := "Bob", overall := "1-2-0",
    matchup := "1-1-0", median := "0-1-0", gb := GBVal.dash, winp := none,
    pf := 45, pa := 55, budget := 100, logo := none }

/-! # Theorems -/

/-! ## Decimal parsing and rendering -/

theorem digitVal_digitChar {n : ℕ} (h : n < 10) : digitVal (Nat.digitChar n) = n := by
  interval_cases n <;> decide

theorem isDigit_digitChar {n : ℕ} (h : n < 10) : (Nat.digitChar n).isDigit = true := by
  interval_cases n <;> decide

theorem natCharsAux_spec :
    ∀ fuel n, n < fuel →
      (∀ c ∈ natCharsAux fuel n, c.isDigit = true) ∧ natCharsAux fuel n ≠ [] ∧
      ∀ a, valAux (natCharsAux fuel n) a = a * 10 ^ (natCharsAux fuel n).length + n := by
  intro fuel
  induction fuel with
  | zero => intro n hn; omega
  | succ fuel ih =>
    intro n hn
    by_cases h10 : n < 10
    · refine ⟨?_, ?_, ?_⟩
      · intro c hc
        simp only [natCharsAux, if_pos h10, List.mem_singleton] at hc
        subst hc; exact isDigit_digitChar h10
      · simp [natCharsAux, if_pos h10]
      · intro a
        simp [natCharsAux, if_pos h10, valAux, digitVal_digitChar h10]
    · have hdiv : n / 10 < fuel := by omega
      obtain ⟨hd, hne, hval⟩ := ih (n / 10) hdiv
      have hmod : n % 10 < 10 := Nat.mod_lt _ (by norm_num)
      refine ⟨?_, ?_, ?_⟩
      · intro c hc
        simp only [natCharsAux, if_neg h10, List.mem_append, List.mem_singleton] at hc
        rcases hc with hc | hc
        · exact hd c hc
        · subst hc; exact isDigit_digitChar hmod
      · simp [natCharsAux, if_neg h10]
      · intro a
        simp only [natCharsAux, if_neg h10, valAux, List.foldl_append, List.foldl_cons,
          List.foldl_nil, List.length_append, List.length_singleton]
        have := hval a
        simp only [valAux] at this
        rw [this, digitVal_digitChar hmod]
        have hdm : 10 * (n / 10) + n % 10 = n := Nat.div_add_mod n 10
        ring_nf
        omega

theorem natChars_digits (n : ℕ) : ∀ c ∈ natChars n, c.isDigit = true :=
  (natCharsAux_spec (n + 1) n (Nat.lt_succ_self n)).1

theorem natChars_ne_nil (n : ℕ) : natChars n ≠ [] :=
  (natCharsAux_spec (n + 1) n (Nat.lt_succ_self n)).2.1

theorem valAux_natChars (n : ℕ) : valAux (natChars n) 0 = n := by
  have := (natCharsAux_spec (n + 1) n (Nat.lt_succ_self n)).2.2 0
  simpa [natChars] using this

theorem digitRunsAux_digits (ds : List Char) (h : ∀ c ∈ ds, c.isDigit = true) :
    ∀ (rest : List Char) (a : ℕ),
      digitRunsAux (ds ++ rest) (some a) = digitRunsAux rest (some (valAux ds a)) := by
  induction ds with
  | nil => intro rest a; simp [valAux]
  | cons c cs ih =>
    intro rest a
    have hc : c.isDigit = true := h c (List.mem_cons_self c cs)
    have hcs : ∀ x ∈ cs, x.isDigit = true := fun x hx => h x (List.mem_cons_of_mem c hx)
    simp only [List.cons_append, digitRunsAux, hc, if_true]
    exact ih hcs rest (a * 10 + digitVal c)

theorem digitRunsAux_start (ds : List Char) (hne : ds ≠ []) (h : ∀ c ∈ ds, c.isDigit = true) :
    ∀ rest : List Char,
      digitRunsAux (ds ++ rest) none = digitRunsAux rest (some (valAux ds 0)) := by
  cases ds with
  | nil => exact absurd rfl hne
  | cons c cs =>
    intro rest
    have hc : c.isDigit = true := h c (List.mem_cons_self c cs)
    have hcs : ∀ x ∈ cs, x.isDigit = true := fun x hx => h x (List.mem_cons_of_mem c hx)
    simp only [List.cons_append, digitRunsAux, hc, if_true]
    have h0 : valAux (c :: cs) 0 = valAux cs (digitVal c) := by simp [valAux]
    rw [h0]
    exact digitRunsAux_digits cs hcs rest (digitVal c)

theorem digitRunsAux_dash (rest : List Char) (n : ℕ) :
    digitRunsAux ('-' :: rest) (some n) = n :: digitRuns rest := by
  simp [digitRunsAux, digitRuns]

theorem digitRuns_three (w l t : ℕ) :
    digitRuns (natChars w ++ '-' :: (natChars l ++ '-' :: natChars t)) = [w, l, t] := by
  unfold digitRuns
  rw [digitRunsAux_start (natChars w) (natChars_ne_nil w) (natChars_digits w),
    valAux_natChars, digitRunsAux_dash,
    digitRuns, digitRunsAux_start (natChars l) (natChars_ne_nil l) (natChars_digits l),
    valAux_natChars, digitRunsAux_dash]
  have ht : digitRuns (natChars t) = [t] := by
    unfold digitRuns
    rw [← List.append_nil (natChars t),
      digitRunsAux_start (natChars t) (natChars_ne_nil t) (natChars_digits t) [],
      valAux_natChars]
    rfl
  rw [ht]

theorem list_to_record_data (w l t : ℕ) :
    (list_to_record [w, l, t]).data = natChars w ++ '-' :: (natChars l ++ '-' :: natChars t) := by
  simp [list_to_record, joinDash]

theorem roundtrip3 (w l t : ℕ) : record_to_list (list_to_record [w, l, t]) = [w, l, t] := by
  rw [record_to_list, list_to_record_data, digitRuns_three]
  rfl

theorem record_to_list_shape (s : String) : ∃ a b c, record_to_list s = [a, b, c] := by
  rcases h : digitRuns s.data with _ | ⟨a, _ | ⟨b, _ | ⟨c, rest⟩⟩⟩ <;>
    simp [record_to_list, h, List.take]

theorem record_to_list_length (s : String) : (record_to_list s).length = 3 := by
  obtain ⟨a, b, c, h⟩ := record_to_list_shape s
  rw [h]; rfl

theorem digitRuns_none (l : List Char) (h : ∀ c ∈ l, c.isDigit = false) :
    digitRuns l = [] := by
  unfold digitRuns
  induction l with
  | nil => rfl
  | cons c cs ih =>
    have hc : c.isDigit = false := h c (List.mem_cons_self c cs)
    simp only [digitRunsAux, hc, if_false, Bool.false_eq_true]
    exact ih fun x hx => h x (List.mem_cons_of_mem c hx)

theorem sum3_list_to_record (a b c : ℕ) : sum3 (list_to_record [a, b, c]) = a + b + c := by
  simp [sum3, roundtrip3]
  ring

theorem zipAdd_three (a b c d e f : ℕ) :
    zipAdd [a, b, c] [d, e, f] = [a + d, b + e, c + f] := rfl

theorem digitRuns_natChars (n : ℕ) : digitRuns (natChars n) = [n] := by
  unfold digitRuns
  rw [← List.append_nil (natChars n),
    digitRunsAux_start (natChars n) (natChars_ne_nil n) (natChars_digits n) [],
    valAux_natChars]
  rfl

theorem digitRuns_join (lst : List ℕ) :
    digitRuns (joinDash (lst.map natChars)) = lst := by
  induction lst with
  | nil => rfl
  | cons x tail ih =>
    cases tail with
    | nil =>
      show digitRuns (joinDash [natChars x]) = [x]
      rw [show joinDash [natChars x] = natChars x from rfl]
      exact digitRuns_natChars x
    | cons y ys =>
      show digitRuns (natChars x ++ '-' :: joinDash (natChars y :: ys.map natChars)) =
        x :: y :: ys
      unfold digitRuns
      rw [digitRunsAux_start (natChars x) (natChars_ne_nil x) (natChars_digits x),
        valAux_natChars, digitRunsAux_dash, ← List.map_cons natChars y ys, ih]

theorem record_to_list_list_gen (lst : List ℕ) :
    record_to_list (list_to_record lst) = (lst ++ [0, 0, 0]).take 3 := by
  unfold record_to_list list_to_record
  rw [show (String.mk (joinDash (lst.map natChars))).data = joinDash (lst.map natChars)
      from rfl,
    digitRuns_join]

/-- C7: `record_to_list` extracts up to three integers from the string and
defaults missing trailing components to 0: for ANY rendered number list the
parse returns the first up-to-three entries padded with zeros, so a
one-number string gives `[w, 0, 0]`, a two-number string such as "5-3"
gives `[w, l, 0]`, a triple round-trips, and a fourth number is truncated
away; the parse always has exactly three components, a digit-free
(malformed or empty) input yields `[0,0,0]`, and the function is total, so
it never raises. -/
theorem record_parse_props :
    (∀ lst : List ℕ, record_to_list (list_to_record lst) = (lst ++ [0, 0, 0]).take 3) ∧
    (∀ w : ℕ, record_to_list (list_to_record [w]) = [w, 0, 0]) ∧
    (∀ w l : ℕ, record_to_list (list_to_record [w, l]) = [w, l, 0]) ∧
    (∀ w l t : ℕ, record_to_list (list_to_record [w, l, t]) = [w, l, t]) ∧
    (∀ w l t x : ℕ, record_to_list (list_to_record [w, l, t, x]) = [w, l, t]) ∧
    (∀ s : String, (∀ c ∈ s.data, c.isDigit = false) → record_to_list s = [0, 0, 0]) ∧
    (∀ s : String, (record_to_list s).length = 3) := by
  refine ⟨record_to_list_list_gen, ?_, ?_, roundtrip3, ?_, ?_, record_to_list_length⟩
  · intro w
    rw [record_to_list_list_gen]
    rfl
  · intro w l
    rw [record_to_list_list_gen]
    rfl
  · intro w l t x
    rw [record_to_list_list_gen]
    rfl
  · intro s h
    rw [record_to_list, digitRuns_none s.data h]
    rfl

theorem record_parse_props_witness :
    record_to_list (list_to_record [5, 3]) = [5, 3, 0] ∧
    record_to_list (list_to_record [3, 14, 0]) = [3, 14, 0] ∧
    record_to_list (list_to_record [9, 4, 1, 8]) = [9, 4, 1] ∧
    record_to_list "" = [0, 0, 0] ∧ record_to_list "w/l" = [0, 0, 0] :=
  ⟨record_parse_props.2.2.1 5 3,
   record_parse_props.2.2.2.1 3 14 0,
   record_parse_props.2.2.2.2.1 9 4 1 8,
   record_parse_props.2.2.2.2.2.1 "" (by decide),
   record_parse_props.2.2.2.2.2.1 "w/l" (by decide)⟩

/-! ## Component sums (claim C1) -/

theorem sum3_eq (s : String) (a b c : ℕ) (h : record_to_list s = [a, b, c]) :
    sum3 s = a + b + c := by
  simp [sum3, h]
  ring

theorem sum3_combineField (e : String) (x : Option String) :
    sum3 (combineField e x) = sum3 e + sum3 (x.getD "0-0-0") := by
  obtain ⟨a, b, c, he⟩ := record_to_list_shape e
  obtain ⟨d, e2, f, hx⟩ := record_to_list_shape (x.getD "0-0-0")
  rw [combineField, he, hx, zipAdd_three, sum3_list_to_record,
    sum3_eq e a b c he, sum3_eq _ d e2 f hx]
  ring

theorem rowInv_buildRow (med : Tally) (t : ApiTeam) : rowInv (buildRow med t) := by
  have ho : (buildRow med t).overall =
      list_to_record (zipAdd (record_to_list (list_to_record [t.wins, t.losses, t.ties]))
        (record_to_list (list_to_record [(med t.team_id).1, (med t.team_id).2, 0]))) := rfl
  have hm : (buildRow med t).matchup = list_to_record [t.wins, t.losses, t.ties] := rfl
  have hd : (buildRow med t).median =
      list_to_record [(med t.team_id).1, (med t.team_id).2, 0] := rfl
  unfold rowInv
  rw [ho, hm, hd, roundtrip3, roundtrip3, zipAdd_three, sum3_list_to_record,
    sum3_list_to_record, sum3_list_to_record]
  ring

theorem rowInv_applyMerge (t : TeamRow) (wk : ExtRow) (ht : rowInv t) (hw : extInv wk) :
    rowInv (applyMerge t wk) := by
  have h1 : (applyMerge t wk).overall = combineField t.overall wk.overall := rfl
  have h2 : (applyMerge t wk).matchup = combineField t.matchup wk.matchup := rfl
  have h3 : (applyMerge t wk).median = combineField t.median wk.median := rfl
  unfold rowInv
  rw [h1, h2, h3, sum3_combineField, sum3_combineField, sum3_combineField]
  unfold rowInv at ht
  unfold extInv at hw
  omega

theorem rowInv_newRow (wk : ExtRow) (hw : extInv wk) : rowInv (newRow wk) := hw

theorem lookupFold_mem (cs : List String) (w wk : ExtRow) :
    ∀ m : String → Option ExtRow, ∀ k,
      (cs.foldl (fun m2 c => lookupUpdate m2 c w) m) k = some wk →
      wk = w ∨ m k = some wk := by
  induction cs with
  | nil => intro m k h; exact Or.inr h
  | cons c cs ih =>
    intro m k h
    rcases ih (lookupUpdate m c w) k h with h1 | h1
    · exact Or.inl h1
    · unfold lookupUpdate at h1
      by_cases hk : k = c
      · rw [if_pos hk] at h1
        exact Or.inl (Option.some.inj h1).symm
      · rw [if_neg hk] at h1
        exact Or.inr h1

theorem buildLookup_mem (ext : List ExtRow) (k : String) (wk : ExtRow) :
    buildLookup ext k = some wk → wk ∈ ext := by
  unfold buildLookup
  suffices h : ∀ m : String → Option ExtRow,
      (ext.foldl (fun m w => (candidates w).foldl (fun m2 c => lookupUpdate m2 c w) m) m) k =
        some wk → wk ∈ ext ∨ m k = some wk by
    intro hh
    rcases h (fun _ => none) hh with h1 | h1
    · exact h1
    · simp at h1
  induction ext with
  | nil => intro m h; exact Or.inr h
  | cons w ws ih =>
    intro m h
    rcases ih _ h with h1 | h1
    · exact Or.inl (List.mem_cons_of_mem w h1)
    · rcases lookupFold_mem (candidates w) w wk m k h1 with h2 | h2
      · subst h2
        exact Or.inl (List.mem_cons_self _ _)
      · exact Or.inr h2

theorem findWk_mem (ext : List ExtRow) (t : TeamRow) (wk : ExtRow)
    (h : findWk (buildLookup ext) t = some wk) : wk ∈ ext := by
  unfold findWk at h
  rcases hl : buildLookup ext (normalize_name t.name) with _ | w
  · rw [hl] at h
    dsimp only at h
    rcases ht : t.team_id with _ | tid
    · rw [ht] at h
      simp at h
    · rw [ht] at h
      dsimp only at h
      exact buildLookup_mem _ _ _ h
  · rw [hl] at h
    dsimp only at h
    have hw : w = wk := Option.some.inj h
    subst hw
    exact buildLookup_mem _ _ _ hl

theorem appendLoop_sublist (ext : List ExtRow) :
    ∀ matched, ∃ sub : List ExtRow,
      sub.Sublist ext ∧ appendLoop ext matched = sub.map newRow := by
  induction ext with
  | nil => intro matched; exact ⟨[], List.Sublist.refl _, rfl⟩
  | cons wk rest ih =>
    intro matched
    rcases hp : primaryOf wk with _ | p
    · obtain ⟨sub, hs, he⟩ := ih matched
      refine ⟨sub, hs.cons wk, ?_⟩
      rw [appendLoop, hp]
      exact he
    · by_cases hm : p ∈ matched
      · obtain ⟨sub, hs, he⟩ := ih matched
        refine ⟨sub, hs.cons wk, ?_⟩
        rw [appendLoop, hp]
        dsimp only
        rw [if_pos hm]
        exact he
      · obtain ⟨sub, hs, he⟩ := ih (p :: matched)
        refine ⟨wk :: sub, hs.cons₂ wk, ?_⟩
        rw [appendLoop, hp]
        dsimp only
        rw [if_neg hm, List.map_cons, he]

/-- C1, amended: every snapshot row satisfies the component-sum invariant
after construction, and after the external merge provided every external
row's own (resolved, defaulted) record fields satisfy the same
component-sum relation; the original claim's "for all external-row inputs"
is refuted by `snapshot_sum_cex` below. -/
theorem snapshot_sum_invariant (med : Tally) (teams : List ApiTeam) (ext : List ExtRow)
    (hext : ∀ wk ∈ ext, extInv wk) :
    (∀ r ∈ buildRows med teams, rowInv r) ∧
    (∀ r ∈ mergePhase (buildRows med teams) ext, rowInv r) := by
  have hbuild : ∀ r ∈ buildRows med teams, rowInv r := by
    intro r hr
    obtain ⟨t, _, rfl⟩ := List.mem_map.1 hr
    exact rowInv_buildRow med t
  refine ⟨hbuild, ?_⟩
  intro r hr
  simp only [mergePhase] at hr
  rcases List.mem_append.1 hr with hr | hr
  · obtain ⟨t, ht, rfl⟩ := List.mem_map.1 hr
    unfold mergeRow
    rcases hf : findWk (buildLookup ext) t with _ | wk
    · exact hbuild t ht
    · exact rowInv_applyMerge t wk (hbuild t ht) (hext wk (findWk_mem ext t wk hf))
  · obtain ⟨sub, hs, he⟩ :=
      appendLoop_sublist ext (matchedKeys (buildLookup ext) (buildRows med teams))
    rw [he] at hr
    obtain ⟨wk, hwk, rfl⟩ := List.mem_map.1 hr
    exact rowInv_newRow wk (hext wk (hs.subset hwk))

unseal Rat.add Rat.mul Rat.sub Rat.inv in
theorem snapshot_sum_invariant_witness :
    extInv extGoodFoo ∧
    rowInv ((mergePhase (buildRows zeroTally [apiFoo]) [extGoodFoo]).getD 0 dummyRow) :=
  ⟨by decide,
   (snapshot_sum_invariant zeroTally [apiFoo] [extGoodFoo] (by decide)).2 _ (by decide)⟩

/-- C1 counterexample: an external row whose own overall field ("1-0-0") is
not the sum of its (absent) matchup and median fields breaks the invariant
on the merged snapshot row. -/
theorem snapshot_sum_cex :
    ¬ rowInv ((mergePhase (buildRows zeroTally [apiFoo]) [extBadOverall]).getD 0 dummyRow) := by
  decide

/-! ## Week loop bounds (claim C3) -/

/-- C3, amended: the median scorer processes exactly the weeks
`1 .. min(current_week, 13)` — increasing, cumulative (a fold with no
reset), never beyond the current week, but capped at THIRTEEN weeks, not
fourteen: week 14 is never processed (see `median_weeks_cex`). -/
theorem median_weeks_amended :
    (∀ cw, processedWeeks cw = List.range' 1 (min cw 13)) ∧
    (∀ cw, List.Pairwise (· < ·) (processedWeeks cw)) ∧
    (∀ cw, (processedWeeks cw).length = min cw 13) ∧
    (∀ cw, ∀ w ∈ processedWeeks cw, 1 ≤ w ∧ w ≤ cw ∧ w ≤ 13) ∧
    (∀ l : LeagueM,
      get_median_records l = (processedWeeks l.current_week).foldl (weekStep l) zeroTally) ∧
    (∀ (l : LeagueM) (ws1 ws2 : List ℕ) (t : Tally),
      (ws1 ++ ws2).foldl (weekStep l) t = ws2.foldl (weekStep l) (ws1.foldl (weekStep l) t)) := by
  have heq : ∀ cw, processedWeeks cw = List.range' 1 (min cw 13) := by
    intro cw
    unfold processedWeeks
    congr 1
    omega
  refine ⟨heq, ?_, ?_, ?_, fun _ => rfl, fun l ws1 ws2 t => List.foldl_append _ _ _ _⟩
  · intro cw
    rw [heq]
    exact List.pairwise_lt_range' 1 (min cw 13)
  · intro cw
    rw [heq, List.length_range']
  · intro cw w hw
    rw [heq] at hw
    have := List.mem_range'_1.1 hw
    omega

theorem median_weeks_amended_witness :
    (3 ∈ processedWeeks 5) ∧ (1 ≤ 3 ∧ 3 ≤ 5 ∧ 3 ≤ 13) :=
  ⟨by decide, median_weeks_amended.2.2.2.1 5 3 (by decide)⟩

/-- C3 counterexample: with current week 14 the claim ("from week 1 up to
the current week inclusive, at most 14 weeks") demands that week 14 be
processed, but the code stops after week 13: a published week-14 box score
leaves the tally untouched. -/
theorem median_weeks_cex :
    (14 ∉ processedWeeks 14) ∧ (14 ∈ claimedWeeksC3 14) ∧
    processedWeeks 14 = [1, 2, 3, 4, 5, 6, 7, 8, 9, 10, 11, 12, 13] ∧
    get_median_records leagueWeek14 1 = (0, 0) := by
  refine ⟨by decide, by decide, by decide, by decide⟩

/-! ## Double counting in the merge (claim C2) -/

unseal Rat.add Rat.mul Rat.sub Rat.inv in
/-- C2 (code bug): the external row `extId7` is matched to the snapshot row
for Foo through the team-id key "7" and its 10 points-for are merged in;
but the merge loop records the snapshot row's normalized NAME ("foo") in
`matched_wk_keys` instead of the external row's primary key ("7"), so the
append loop fails to recognize the row as merged and appends it again: its
contribution is counted twice. -/
theorem merge_double_count_bug :
    (mergePhase (buildRows zeroTally [apiFoo]) [extId7]).length = 2 ∧
    ((mergePhase (buildRows zeroTally [apiFoo]) [extId7]).getD 0 dummyRow).pf = 10 ∧
    ((mergePhase (buildRows zeroTally [apiFoo]) [extId7]).getD 1 dummyRow).pf = 10 ∧
    ((mergePhase (buildRows zeroTally [apiFoo]) [extId7]).getD 1 dummyRow).name = "Unknown" ∧
    matchedKeys (buildLookup [extId7]) (buildRows zeroTally [apiFoo]) = ["foo"] ∧
    primaryOf extId7 = some "7" := by
  refine ⟨by decide, by decide, by decide, by decide, by decide, by decide⟩

/-! ## Exactness of 1-decimal rounding on half-integers (claims C6, C9) -/

theorem rat_floor_intCast (n : ℤ) : ((n : ℚ)).floor = n := by
  rw [Rat.floor_def']
  simp

theorem rnd_intCast (n : ℤ) : rnd ((n : ℚ)) = n := by
  unfold rnd
  rw [rat_floor_intCast]
  rw [if_pos]
  rw [sub_self]
  norm_num

theorem round1_half (n : ℤ) : round1 ((n : ℚ) / 2) = (n : ℚ) / 2 := by
  unfold round1
  have h : (n : ℚ) / 2 * 10 = ((5 * n : ℤ) : ℚ) := by push_cast; ring
  rw [h, rnd_intCast]
  push_cast
  ring

/-! ## Median tally accounting (claims C8, C10) -/

theorem creditSide_sum (med : ℚ) (tally : Tally) (team : Option ℕ) (score : Option ℚ)
    (tid : ℕ) :
    (creditSide med tally team score tid).1 + (creditSide med tally team score tid).2 =
      (tally tid).1 + (tally tid).2 + sideCount tid team score := by
  rcases team with _ | t0 <;> rcases score with _ | s
  · simp [creditSide, sideCount]
  · simp [creditSide, sideCount]
  · simp [creditSide, sideCount]
  · by_cases h : tid = t0
    · subst h
      by_cases hm : med ≤ s <;> simp [creditSide, sideCount, hm] <;> omega
    · have h2 : ¬ (t0 = tid) := fun hh => h hh.symm
      simp [creditSide, sideCount, h, h2]

theorem creditBoxes_sum (med : ℚ) (boxes : List Box) :
    ∀ (tally : Tally) (tid : ℕ),
      (creditBoxes med tally boxes tid).1 + (creditBoxes med tally boxes tid).2 =
        (tally tid).1 + (tally tid).2 + appearCount tid boxes := by
  induction boxes with
  | nil => intro tally tid; simp [creditBoxes, appearCount]
  | cons b bs ih =>
    intro tally tid
    have hstep : creditBoxes med tally (b :: bs) =
        creditBoxes med (creditSide med (creditSide med tally b.home_team b.home_score)
          b.away_team b.away_score) bs := rfl
    rw [hstep, ih, creditSide_sum, creditSide_sum]
    have hac : appearCount tid (b :: bs) =
        sideCount tid b.home_team b.home_score + sideCount tid b.away_team b.away_score +
          appearCount tid bs := by
      simp [appearCount]
      try ring
    rw [hac]
    omega

theorem processWeek_sum (boxes : List Box) (tally : Tally) (tid : ℕ) :
    (processWeek tally boxes tid).1 + (processWeek tally boxes tid).2 =
      (tally tid).1 + (tally tid).2 +
        (if scoresOf boxes = [] then 0 else appearCount tid boxes) := by
  unfold processWeek
  by_cases h : scoresOf boxes = []
  · simp [h]
  · simp only [h, if_neg, if_false]
    exact creditBoxes_sum (medianOf (scoresOf boxes)) boxes tally tid

theorem foldWeeks_sum (l : LeagueM) (ws : List ℕ) :
    ∀ (t : Tally) (tid : ℕ),
      ((ws.foldl (weekStep l) t) tid).1 + ((ws.foldl (weekStep l) t) tid).2 =
        (t tid).1 + (t tid).2 + (ws.map (weekContrib l tid)).sum := by
  induction ws with
  | nil => intro t tid; simp
  | cons w ws ih =>
    intro t tid
    rw [List.foldl_cons, ih]
    have hw : (weekStep l t w tid).1 + (weekStep l t w tid).2 =
        (t tid).1 + (t tid).2 + weekContrib l tid w := by
      unfold weekStep weekContrib
      rcases hbs : l.box_scores w with _ | boxes
      · simp
      · exact processWeek_sum boxes t tid
    rw [hw, List.map_cons, List.sum_cons]
    omega

/-- C8, amended: after median scoring, every team's median wins plus median
losses equals the TOTAL NUMBER OF ITS NON-NULL SCORE ENTRIES across the
processed non-empty weeks (equal to the claimed number of such weeks only
when the team appears at most once per week — see `median_tally_cex`);
each non-null side increments exactly one of the team's two counters and
touches no other team; and the tally carries no tie component (the built
median record's third component is always the literal 0). -/
theorem median_tally_amended :
    (∀ (l : LeagueM) (tid : ℕ),
      (get_median_records l tid).1 + (get_median_records l tid).2 =
        ((processedWeeks l.current_week).map (weekContrib l tid)).sum) ∧
    (∀ (med : ℚ) (tally : Tally) (tid : ℕ) (s : ℚ),
      creditSide med tally (some tid) (some s) tid =
        (if med ≤ s then ((tally tid).1 + 1, (tally tid).2)
         else ((tally tid).1, (tally tid).2 + 1))) ∧
    (∀ (med : ℚ) (tally : Tally) (tid id2 : ℕ) (s : ℚ), id2 ≠ tid →
      creditSide med tally (some tid) (some s) id2 = tally id2) ∧
    (∀ (med : Tally) (t : ApiTeam), (record_to_list (buildRow med t).median).getD 2 0 = 0) := by
  refine ⟨?_, ?_, ?_, ?_⟩
  · intro l tid
    unfold get_median_records
    rw [foldWeeks_sum]
    simp [zeroTally]
  · intro med tally tid s
    by_cases hm : med ≤ s <;> simp [creditSide, hm]
  · intro med tally tid id2 s h
    simp [creditSide, h]
  · intro med t
    have hd : (buildRow med t).median =
        list_to_record [(med t.team_id).1, (med t.team_id).2, 0] := rfl
    rw [hd, roundtrip3]
    rfl

theorem median_tally_amended_witness :
    ((2 : ℕ) ≠ 1) ∧ creditSide 5 zeroTally (some 1) (some 7) 2 = zeroTally 2 :=
  ⟨by decide, median_tally_amended.2.2.1 5 zeroTally 1 2 7 (by decide)⟩

unseal Rat.add Rat.mul Rat.sub Rat.inv in
/-- C8 counterexample: in `leagueDup` the league team with id 7 appears on
both sides of the single box of week 1 with non-null scores, so its median
wins plus losses is 2, while the number of processed non-empty weeks in
which it has a non-null score is 1. -/
theorem median_tally_cex :
    (get_median_records leagueDup 7).1 + (get_median_records leagueDup 7).2 = 2 ∧
    weeksWithScore leagueDup 7 = 1 := by
  refine ⟨by decide, by decide⟩

theorem medianOf_const (l : List ℚ) (v : ℚ) (hne : l ≠ []) (hall : ∀ s ∈ l, s = v) :
    medianOf l = v := by
  unfold medianOf
  have hperm := List.perm_insertionSort (· ≤ ·) l
  have hmem : ∀ x ∈ l.insertionSort (· ≤ ·), x = v := fun x hx =>
    hall x (hperm.mem_iff.1 hx)
  have hlen : (l.insertionSort (· ≤ ·)).length = l.length := hperm.length_eq
  have hpos : 0 < (l.insertionSort (· ≤ ·)).length := by
    rw [hlen]
    exact List.length_pos.2 hne
  have hmid : (l.insertionSort (· ≤ ·)).length / 2 < (l.insertionSort (· ≤ ·)).length :=
    Nat.div_lt_self hpos (by norm_num)
  have hv2 : (l.insertionSort (· ≤ ·)).getD ((l.insertionSort (· ≤ ·)).length / 2) 0 = v := by
    rw [List.getD_eq_getElem _ 0 hmid]
    exact hmem _ (List.getElem_mem hmid)
  by_cases he : (l.insertionSort (· ≤ ·)).length % 2 = 0
  · have hmid1 : (l.insertionSort (· ≤ ·)).length / 2 - 1 < (l.insertionSort (· ≤ ·)).length := by
      omega
    have hv1 : (l.insertionSort (· ≤ ·)).getD ((l.insertionSort (· ≤ ·)).length / 2 - 1) 0 = v := by
      rw [List.getD_eq_getElem _ 0 hmid1]
      exact hmem _ (List.getElem_mem hmid1)
    rw [if_pos he, hv1, hv2]
    ring
  · rw [if_neg he, hv2]

theorem creditSide_win (med : ℚ) (tally : Tally) (team : Option ℕ) (score : Option ℚ)
    (hs : ∀ s, score = some s → med ≤ s) (tid : ℕ) :
    creditSide med tally team score tid =
      ((tally tid).1 + sideCount tid team score, (tally tid).2) := by
  rcases team with _ | t0 <;> rcases score with _ | s
  · simp [creditSide, sideCount]
  · simp [creditSide, sideCount]
  · simp [creditSide, sideCount]
  · have hm : med ≤ s := hs s rfl
    by_cases h : tid = t0
    · subst h
      simp [creditSide, sideCount, hm]
    · have h2 : ¬ (t0 = tid) := fun hh => h hh.symm
      simp [creditSide, sideCount, h, h2]

theorem creditBoxes_win (med : ℚ) (boxes : List Box) :
    ∀ (tally : Tally) (tid : ℕ), (∀ s ∈ scoresOf boxes, med ≤ s) →
      creditBoxes med tally boxes tid =
        ((tally tid).1 + appearCount tid boxes, (tally tid).2) := by
  induction boxes with
  | nil => intro tally tid _; simp [creditBoxes, appearCount]
  | cons b bs ih =>
    intro tally tid hs
    have hcons : scoresOf (b :: bs) =
        ([b.home_score, b.away_score].filterMap id) ++ scoresOf bs := by
      simp [scoresOf]
    have hsh : ∀ s, b.home_score = some s → med ≤ s := by
      intro s hsd
      apply hs
      rw [hcons, hsd]
      simp
    have hsa : ∀ s, b.away_score = some s → med ≤ s := by
      intro s hsd
      apply hs
      rw [hcons, hsd]
      rcases b.home_score with _ | x <;> simp
    have hbs : ∀ s ∈ scoresOf bs, med ≤ s := by
      intro s hsd
      apply hs
      rw [hcons]
      exact List.mem_append_right _ hsd
    have hstep : creditBoxes med tally (b :: bs) =
        creditBoxes med (creditSide med (creditSide med tally b.home_team b.home_score)
          b.away_team b.away_score) bs := rfl
    rw [hstep, ih _ tid hbs, creditSide_win med _ _ _ hsa, creditSide_win med _ _ _ hsh]
    have hac : appearCount tid (b :: bs) =
        sideCount tid b.home_team b.home_score + sideCount tid b.away_team b.away_score +
          appearCount tid bs := by
      simp [appearCount]
      try ring
    rw [hac]
    simp only [Prod.mk.injEq]
    constructor
    · omega
    · trivial

/-- C10: in a processed week in which every non-null score equals `v`, the
median is `v`, and every non-null side is credited a median win and no
median loss (the comparison is `score >= median`). -/
theorem median_week_all_equal (boxes : List Box) (v : ℚ) (tally : Tally)
    (hne : scoresOf boxes ≠ []) (hall : ∀ s ∈ scoresOf boxes, s = v) :
    medianOf (scoresOf boxes) = v ∧
    ∀ tid, processWeek tally boxes tid =
      ((tally tid).1 + appearCount tid boxes, (tally tid).2) := by
  have hmed : medianOf (scoresOf boxes) = v := medianOf_const _ v hne hall
  refine ⟨hmed, ?_⟩
  intro tid
  unfold processWeek
  rw [if_neg hne]
  refine creditBoxes_win (medianOf (scoresOf boxes)) boxes tally tid ?_
  intro s hsd
  rw [hmed, hall s hsd]

unseal Rat.add Rat.mul Rat.sub Rat.inv in
theorem median_week_all_equal_witness :
    (scoresOf boxesEq ≠ []) ∧
    processWeek zeroTally boxesEq 1 =
      ((zeroTally 1).1 + appearCount 1 boxesEq, (zeroTally 1).2) :=
  ⟨by decide, (median_week_all_equal boxesEq 10 zeroTally (by decide) (by decide)).2 1⟩

/-! ## Leader selection and games-behind (claims C6, C9) -/

theorem bestAux_ge (ts : List TeamRow) :
    ∀ b i, rowKey b.1 ≤ rowKey (bestAux ts b i).1 ∧
      ∀ x ∈ ts, rowKey x ≤ rowKey (bestAux ts b i).1 := by
  induction ts with
  | nil =>
    intro b i
    exact ⟨le_refl _, fun x hx => absurd hx (List.not_mem_nil x)⟩
  | cons t ts ih =>
    intro b i
    by_cases hk : rowKey b.1 < rowKey t
    · obtain ⟨h1, h2⟩ := ih (t, i) (i + 1)
      have hstep : bestAux (t :: ts) b i = bestAux ts (t, i) (i + 1) := by
        rw [bestAux, if_pos hk]
      rw [hstep]
      refine ⟨le_trans (le_of_lt hk) h1, ?_⟩
      intro x hx
      rcases List.mem_cons.1 hx with rfl | hx
      · exact h1
      · exact h2 x hx
    · obtain ⟨h1, h2⟩ := ih b (i + 1)
      have hstep : bestAux (t :: ts) b i = bestAux ts b (i + 1) := by
        rw [bestAux, if_neg hk]
      rw [hstep]
      refine ⟨h1, ?_⟩
      intro x hx
      rcases List.mem_cons.1 hx with rfl | hx
      · exact le_trans (le_of_not_lt hk) h1
      · exact h2 x hx

theorem bestAux_pos (ts : List TeamRow) :
    ∀ b i, (bestAux ts b i = b) ∨
      ∃ j, j < ts.length ∧ (bestAux ts b i).2 = i + j ∧
        (bestAux ts b i).1 = ts.getD j dummyRow := by
  induction ts with
  | nil => intro b i; exact Or.inl rfl
  | cons t ts ih =>
    intro b i
    by_cases hk : rowKey b.1 < rowKey t
    · have hb : bestAux (t :: ts) b i = bestAux ts (t, i) (i + 1) := by
        rw [bestAux, if_pos hk]
      rcases ih (t, i) (i + 1) with h | ⟨j, hj, h2, h1⟩
      · right
        refine ⟨0, Nat.succ_pos _, ?_, ?_⟩ <;> rw [hb, h] <;> simp
      · right
        refine ⟨j + 1, by simp only [List.length_cons]; omega, ?_, ?_⟩
        · rw [hb, h2]
          omega
        · rw [hb, h1]
          simp [List.getD_cons_succ]
    · have hb : bestAux (t :: ts) b i = bestAux ts b (i + 1) := by
        rw [bestAux, if_neg hk]
      rcases ih b (i + 1) with h | ⟨j, hj, h2, h1⟩
      · left
        rw [hb, h]
      · right
        refine ⟨j + 1, by simp only [List.length_cons]; omega, ?_, ?_⟩
        · rw [hb, h2]
          omega
        · rw [hb, h1]
          simp [List.getD_cons_succ]

theorem leaderPair_spec (rows : List TeamRow) (hne : rows ≠ []) :
    (leaderPair rows).2 < rows.length ∧
    rows.getD (leaderPair rows).2 dummyRow = (leaderPair rows).1 ∧
    ∀ x ∈ rows, rowKey x ≤ rowKey (leaderPair rows).1 := by
  cases rows with
  | nil => exact absurd rfl hne
  | cons t ts =>
    have hL : leaderPair (t :: ts) = bestAux ts (t, 0) 1 := rfl
    obtain ⟨hge1, hge2⟩ := bestAux_ge ts (t, 0) 1
    refine ⟨?_, ?_, ?_⟩
    · rcases bestAux_pos ts (t, 0) 1 with h | ⟨j, hj, h2, _⟩
      · rw [hL, h]
        simp
      · rw [hL, h2]
        simp
        omega
    · rcases bestAux_pos ts (t, 0) 1 with h | ⟨j, hj, h2, h1⟩
      · rw [hL, h]
        rfl
      · rw [hL, h2, h1]
        have : 1 + j = j + 1 := by omega
        rw [this, List.getD_cons_succ]
    · intro x hx
      rw [hL]
      rcases List.mem_cons.1 hx with rfl | hx
      · exact hge1
      · exact hge2 x hx

theorem mapIdxFrom_length (f : ℕ → TeamRow → TeamRow) :
    ∀ (rows : List TeamRow) (st : ℕ), (mapIdxFrom f st rows).length = rows.length := by
  intro rows
  induction rows with
  | nil => intro st; rfl
  | cons t ts ih =>
    intro st
    simp [mapIdxFrom, ih]

theorem mapIdxFrom_getD (f : ℕ → TeamRow → TeamRow) :
    ∀ (rows : List TeamRow) (st j : ℕ), j < rows.length →
      (mapIdxFrom f st rows).getD j dummyRow = f (st + j) (rows.getD j dummyRow) := by
  intro rows
  induction rows with
  | nil =>
    intro st j h
    simp at h
  | cons t ts ih =>
    intro st j h
    cases j with
    | zero => simp [mapIdxFrom]
    | succ j =>
      have hj : j < ts.length := by simpa using Nat.lt_of_succ_lt_succ h
      simp only [mapIdxFrom, List.getD_cons_succ]
      rw [ih (st + 1) j hj]
      congr 1
      omega

theorem rowKey_setWinPct (t : TeamRow) : rowKey (setWinPct t) = rowKey t := rfl

theorem setWinPct_overall (t : TeamRow) : (setWinPct t).overall = t.overall := rfl

theorem bestAux_map (f : TeamRow → TeamRow) (hf : ∀ t, rowKey (f t) = rowKey t)
    (ts : List TeamRow) :
    ∀ b i, bestAux (ts.map f) (f b.1, b.2) i =
      (f (bestAux ts b i).1, (bestAux ts b i).2) := by
  induction ts with
  | nil => intro b i; rfl
  | cons t ts ih =>
    intro b i
    rw [List.map_cons, bestAux, bestAux, hf t, hf b.1]
    by_cases hk : rowKey b.1 < rowKey t
    · rw [if_pos hk, if_pos hk]
      exact ih (t, i) (i + 1)
    · rw [if_neg hk, if_neg hk]
      exact ih b (i + 1)

theorem leaderPair_map (f : TeamRow → TeamRow) (hf : ∀ t, rowKey (f t) = rowKey t)
    (rows : List TeamRow) (hne : rows ≠ []) :
    leaderPair (rows.map f) = (f (leaderPair rows).1, (leaderPair rows).2) := by
  cases rows with
  | nil => exact absurd rfl hne
  | cons t ts =>
    rw [List.map_cons]
    show bestAux (ts.map f) (f t, 0) 1 = _
    exact bestAux_map f hf ts (t, 0) 1

theorem setRankFirst_gb (nm : String) (rk : ℤ) :
    ∀ rows : List TeamRow, (setRankFirst rows nm rk).map (·.gb) = rows.map (·.gb) := by
  intro rows
  induction rows with
  | nil => rfl
  | cons t ts ih =>
    by_cases h : normalize_name t.name = nm
    · simp [setRankFirst, h]
    · simp [setRankFirst, h, ih]

theorem rankLoop_gb (S : List TeamRow) :
    ∀ (i : ℤ) (acc : List TeamRow), (rankLoop S i acc).map (·.gb) = acc.map (·.gb) := by
  induction S with
  | nil => intro i acc; rfl
  | cons t ts ih =>
    intro i acc
    rw [rankLoop, ih, setRankFirst_gb]

theorem assignRanks_gb (rows : List TeamRow) :
    (assignRanks rows).map (·.gb) = rows.map (·.gb) :=
  rankLoop_gb _ 1 rows

theorem map_gb_getD (xs : List TeamRow) (i : ℕ) (hi : i < xs.length) (d : GBVal) :
    (xs.map (·.gb)).getD i d = (xs.getD i dummyRow).gb := by
  have hm : i < (xs.map (·.gb)).length := by simpa using hi
  rw [List.getD_eq_getElem _ _ hm, List.getD_eq_getElem _ _ hi]
  simp

theorem gb_getD_of_map_eq (xs ys : List TeamRow) (h : xs.map (·.gb) = ys.map (·.gb))
    (i : ℕ) (hi : i < ys.length) :
    (xs.getD i dummyRow).gb = (ys.getD i dummyRow).gb := by
  have hlen : xs.length = ys.length := by
    have := congrArg List.length h
    simpa using this
  have hxi : i < xs.length := by omega
  rw [← map_gb_getD xs i hxi GBVal.dash, ← map_gb_getD ys i hi GBVal.dash, h]

theorem winPctPhase_getD (rows : List TeamRow) (i : ℕ) (hi : i < rows.length) :
    (winPctPhase rows).getD i dummyRow = setWinPct (rows.getD i dummyRow) := by
  have hm : i < (winPctPhase rows).length := by simpa [winPctPhase] using hi
  rw [List.getD_eq_getElem _ _ hm, List.getD_eq_getElem _ _ hi]
  simp [winPctPhase]

theorem recomputeGB_eq (rows : List TeamRow) (hne : rows ≠ []) :
    recomputeGB rows = mapIdxFrom
      (gbUpdate (leaderPair rows).2
        ((record_to_list (leaderPair rows).1.overall).getD 0 0)
        ((record_to_list (leaderPair rows).1.overall).getD 1 0)) 0 rows := by
  cases rows with
  | nil => exact absurd rfl hne
  | cons t ts => rfl

theorem gbUpdate_self (li lw ll : ℕ) (t : TeamRow) :
    (gbUpdate li lw ll li t).gb = GBVal.int 0 := by
  simp [gbUpdate]

theorem gbUpdate_other (li lw ll i : ℕ) (t : TeamRow) (h : i ≠ li) :
    (gbUpdate li lw ll i t).gb =
      GBVal.num (gbFormula lw ll ((record_to_list t.overall).getD 0 0)
        ((record_to_list t.overall).getD 1 0)) := by
  simp only [gbUpdate, if_neg h]
  rw [round1_half]
  rfl

theorem count_int0_out (li lw ll : ℕ) :
    ∀ (rows : List TeamRow) (st : ℕ), li < st →
      ((mapIdxFrom (gbUpdate li lw ll) st rows).map (·.gb)).count (GBVal.int 0) = 0 := by
  intro rows
  induction rows with
  | nil => intro st _; rfl
  | cons t ts ih =>
    intro st h
    have hne : st ≠ li := by omega
    simp only [mapIdxFrom, List.map_cons, List.count_cons, gbUpdate_other li lw ll st t hne]
    rw [ih (st + 1) (by omega)]
    simp

theorem count_int0_in (li lw ll : ℕ) :
    ∀ (rows : List TeamRow) (st : ℕ), st ≤ li → li < st + rows.length →
      ((mapIdxFrom (gbUpdate li lw ll) st rows).map (·.gb)).count (GBVal.int 0) = 1 := by
  intro rows
  induction rows with
  | nil =>
    intro st h1 h2
    simp only [List.length_nil] at h2
    omega
  | cons t ts ih =>
    intro st h1 h2
    by_cases he : st = li
    · subst he
      simp only [mapIdxFrom, List.map_cons, List.count_cons, gbUpdate_self]
      rw [count_int0_out st lw ll ts (st + 1) (by omega)]
      simp
    · simp only [mapIdxFrom, List.map_cons, List.count_cons, gbUpdate_other li lw ll st t he]
      rw [ih (st + 1) (by omega) (by simp only [List.length_cons] at h2; omega)]
      simp

theorem finalize_gb_spec (rows : List TeamRow) (hne : rows ≠ []) :
    (∀ x ∈ rows, rowKey x ≤ rowKey (leaderPair rows).1) ∧
    (leaderPair rows).2 < rows.length ∧
    (((finalize rows).getD (leaderPair rows).2 dummyRow).gb = GBVal.int 0) ∧
    (∀ i, i < rows.length → i ≠ (leaderPair rows).2 →
      ((finalize rows).getD i dummyRow).gb =
        GBVal.num (gbFormula
          ((record_to_list (leaderPair rows).1.overall).getD 0 0)
          ((record_to_list (leaderPair rows).1.overall).getD 1 0)
          ((record_to_list (rows.getD i dummyRow).overall).getD 0 0)
          ((record_to_list (rows.getD i dummyRow).overall).getD 1 0))) ∧
    (((finalize rows).map (·.gb)).count (GBVal.int 0) = 1) := by
  obtain ⟨hlt, hget, hmax⟩ := leaderPair_spec rows hne
  have hWlen : (winPctPhase rows).length = rows.length := by simp [winPctPhase]
  have hWne : winPctPhase rows ≠ [] := by
    intro h
    apply hne
    have := congrArg List.length h
    rw [hWlen] at this
    exact List.length_eq_zero.1 this
  have hLP : leaderPair (winPctPhase rows) =
      (setWinPct (leaderPair rows).1, (leaderPair rows).2) :=
    leaderPair_map setWinPct (fun t => rfl) rows hne
  have hG : recomputeGB (winPctPhase rows) =
      mapIdxFrom (gbUpdate (leaderPair rows).2
        ((record_to_list (leaderPair rows).1.overall).getD 0 0)
        ((record_to_list (leaderPair rows).1.overall).getD 1 0)) 0 (winPctPhase rows) := by
    rw [recomputeGB_eq _ hWne, hLP]
    rfl
  have hGlen : (recomputeGB (winPctPhase rows)).length = rows.length := by
    rw [hG, mapIdxFrom_length, hWlen]
  have hFgb : ∀ i, i < rows.length →
      ((finalize rows).getD i dummyRow).gb =
        (gbUpdate (leaderPair rows).2
          ((record_to_list (leaderPair rows).1.overall).getD 0 0)
          ((record_to_list (leaderPair rows).1.overall).getD 1 0) i
          ((winPctPhase rows).getD i dummyRow)).gb := by
    intro i hi
    have h1 : ((finalize rows).getD i dummyRow).gb =
        ((recomputeGB (winPctPhase rows)).getD i dummyRow).gb := by
      apply gb_getD_of_map_eq
      · exact assignRanks_gb _
      · rw [hGlen]
        exact hi
    rw [h1, hG, mapIdxFrom_getD _ _ 0 i (by rw [hWlen]; exact hi)]
    simp only [Nat.zero_add]
  refine ⟨hmax, hlt, ?_, ?_, ?_⟩
  · rw [hFgb _ hlt, gbUpdate_self]
  · intro i hi hne2
    rw [hFgb i hi, gbUpdate_other _ _ _ _ _ hne2, winPctPhase_getD rows i hi,
      setWinPct_overall]
  · have hcount : ((finalize rows).map (·.gb)).count (GBVal.int 0) =
        ((recomputeGB (winPctPhase rows)).map (·.gb)).count (GBVal.int 0) := by
      show ((assignRanks (recomputeGB (winPctPhase rows))).map (·.gb)).count (GBVal.int 0) = _
      rw [assignRanks_gb]
    rw [hcount, hG]
    exact count_int0_in _ _ _ (winPctPhase rows) 0 (Nat.zero_le _)
      (by rw [Nat.zero_add, hWlen]; exact hlt)

/-- C6: after finalization the row selected as leader maximizes
`(overall wins, PF, -overall losses)` over all rows, its games-behind is
the integer sentinel 0, and every other row's games-behind is exactly
`((leader wins - wins) + (losses - leader losses)) / 2` — the 1-decimal
rounding is exact on half-integers, and negative values pass through
unclamped because the value IS the formula. -/
theorem leader_gb_correct (rows : List TeamRow) (hne : rows ≠ []) : LeaderGBProp rows := by
  obtain ⟨h1, _, h3, h4, _⟩ := finalize_gb_spec rows hne
  exact ⟨h1, h3, h4⟩

theorem leader_gb_correct_witness :
    ([rowAlice, rowBob] ≠ []) ∧ LeaderGBProp [rowAlice, rowBob] :=
  ⟨by decide, leader_gb_correct [rowAlice, rowBob] (by decide)⟩

/-- C9: exactly one row — the one at the leader position, the model of the
`t is leader` object-identity test — carries the integer-0 games-behind
sentinel; any other row whose overall wins and losses coincide with the
leader's carries the formula value, the float 0, instead. -/
theorem leader_gb_unique (rows : List TeamRow) (hne : rows ≠ []) : LeaderUniqueProp rows := by
  obtain ⟨_, _, _, h4, h5⟩ := finalize_gb_spec rows hne
  refine ⟨h5, ?_⟩
  intro i hi hne2 hw hl
  rw [h4 i hi hne2, hw, hl]
  congr 1
  unfold gbFormula
  push_cast
  ring

theorem leader_gb_unique_witness :
    ([rowBob, rowAlice] ≠ []) ∧ LeaderUniqueProp [rowBob, rowAlice] :=
  ⟨by decide, leader_gb_unique [rowBob, rowAlice] (by decide)⟩

/-! ## The re-rank pass (claim C4) -/

theorem nameIdx_cons (s : TeamRow) (S : List TeamRow) (nm : String) :
    nameIdx (s :: S) nm =
      if normalize_name s.name = nm then some 0 else (nameIdx S nm).map (· + 1) := by
  unfold nameIdx
  by_cases h : normalize_name s.name = nm <;> simp [List.findIdx?_cons, h]

theorem nameIdx_not_mem (S : List TeamRow) (nm : String)
    (h : nm ∉ S.map fun s => normalize_name s.name) : nameIdx S nm = none := by
  induction S with
  | nil => rfl
  | cons s S ih =>
    have h1 : normalize_name s.name ≠ nm := by
      intro he
      exact h (by rw [List.map_cons, ← he]; exact List.mem_cons_self _ _)
    have h2 : nm ∉ S.map fun s => normalize_name s.name := by
      intro hm
      exact h (by rw [List.map_cons]; exact List.mem_cons_of_mem _ hm)
    rw [nameIdx_cons, if_neg h1, ih h2]
    rfl

theorem setRankFirst_map (nm : String) (rk : ℤ) :
    ∀ rows : List TeamRow, (rows.map fun t => normalize_name t.name).Nodup →
      setRankFirst rows nm rk =
        rows.map fun t =>
          if normalize_name t.name = nm then { t with rank := some rk } else t := by
  intro rows
  induction rows with
  | nil => intro _; rfl
  | cons t ts ih =>
    intro hnd
    rw [List.map_cons, List.nodup_cons] at hnd
    obtain ⟨hnotin, hnd2⟩ := hnd
    by_cases h : normalize_name t.name = nm
    · rw [setRankFirst, if_pos h, List.map_cons, if_pos h]
      congr 1
      have hno : ∀ x ∈ ts, normalize_name x.name ≠ nm := by
        intro x hx hxe
        apply hnotin
        rw [h, ← hxe]
        exact List.mem_map_of_mem _ hx
      have : (ts.map fun x =>
          if normalize_name x.name = nm then { x with rank := some rk } else x) = ts.map id := by
        apply List.map_congr_left
        intro x hx
        rw [if_neg (hno x hx)]
        rfl
      rw [this, List.map_id]
    · rw [setRankFirst, if_neg h, List.map_cons, if_neg h, ih hnd2]

theorem rankMapStep_names (nm : String) (rk : ℤ) (rows : List TeamRow) :
    ((rows.map fun t =>
        if normalize_name t.name = nm then { t with rank := some rk } else t).map
      fun t => normalize_name t.name) = rows.map fun t => normalize_name t.name := by
  rw [List.map_map]
  apply List.map_congr_left
  intro x _
  by_cases h : normalize_name x.name = nm <;> simp [Function.comp, h]

theorem rankFromList_step (s : TeamRow) (S : List TeamRow) (i : ℤ) (t : TeamRow)
    (hsnot : normalize_name s.name ∉ S.map fun x => normalize_name x.name) :
    rankFromList S (i + 1)
        (if normalize_name t.name = normalize_name s.name then { t with rank := some i }
         else t) =
      rankFromList (s :: S) i t := by
  by_cases h : normalize_name t.name = normalize_name s.name
  · rw [if_pos h]
    unfold rankFromList
    have hname : normalize_name ({ t with rank := some i } : TeamRow).name =
        normalize_name t.name := rfl
    rw [hname, h, nameIdx_not_mem S _ hsnot, nameIdx_cons, if_pos rfl]
    simp
  · rw [if_neg h]
    unfold rankFromList
    rw [nameIdx_cons, if_neg (fun he => h he.symm)]
    cases hS : nameIdx S (normalize_name t.name) with
    | none => rfl
    | some j =>
      simp only [Option.map_some]
      congr 2
      push_cast
      ring

theorem rankLoop_map (S : List TeamRow) :
    ∀ (i : ℤ) (acc : List TeamRow),
      (S.map fun s => normalize_name s.name).Nodup →
      (acc.map fun t => normalize_name t.name).Nodup →
      rankLoop S i acc = acc.map (rankFromList S i) := by
  induction S with
  | nil =>
    intro i acc _ _
    rw [rankLoop]
    have h : acc.map (rankFromList [] i) = acc.map id :=
      List.map_congr_left fun t _ => rfl
    rw [h, List.map_id]
  | cons s S ih =>
    intro i acc hndS hndacc
    rw [List.map_cons, List.nodup_cons] at hndS
    obtain ⟨hsnot, hndS2⟩ := hndS
    rw [rankLoop, setRankFirst_map _ _ acc hndacc,
      ih (i + 1) _ hndS2 (by rw [rankMapStep_names]; exact hndacc), List.map_map]
    apply List.map_congr_left
    intro t _
    exact rankFromList_step s S i t hsnot

theorem assignRanks_closed (rows : List TeamRow)
    (hnd : (rows.map fun t => normalize_name t.name).Nodup) :
    assignRanks rows = rows.map (rankFromList (sortRows rows) 1) := by
  unfold assignRanks
  apply rankLoop_map
  · have hperm : List.Perm ((sortRows rows).map fun t => normalize_name t.name)
        (rows.map fun t => normalize_name t.name) :=
      (List.perm_insertionSort _ rows).map _
    exact hperm.nodup_iff.2 hnd
  · exact hnd

theorem eraseRank_rankFromList (S : List TeamRow) (i : ℤ) (t : TeamRow) :
    eraseRank (rankFromList S i t) = eraseRank t := by
  unfold rankFromList
  cases nameIdx S (normalize_name t.name) <;> rfl

theorem rank_list (T : List TeamRow) :
    ∀ i : ℤ, (T.map fun s => normalize_name s.name).Nodup →
      (T.map fun t => (rankFromList T i t).rank) =
        (List.range T.length).map fun n : ℕ => some (i + (n : ℤ)) := by
  induction T with
  | nil => intro i _; rfl
  | cons s S ih =>
    intro i hnd
    rw [List.map_cons, List.nodup_cons] at hnd
    obtain ⟨hsnot, hnd2⟩ := hnd
    rw [List.map_cons]
    have hhead : (rankFromList (s :: S) i s).rank = some i := by
      unfold rankFromList
      rw [nameIdx_cons, if_pos rfl]
      simp
    have htail : (S.map fun t => (rankFromList (s :: S) i t).rank) =
        S.map fun t => (rankFromList S (i + 1) t).rank := by
      apply List.map_congr_left
      intro t ht
      have hname : ¬ (normalize_name s.name = normalize_name t.name) := by
        intro he
        apply hsnot
        rw [he]
        exact List.mem_map_of_mem _ ht
      unfold rankFromList
      rw [nameIdx_cons, if_neg hname]
      cases hS : nameIdx S (normalize_name t.name) with
      | none => rfl
      | some j =>
        simp only [Option.map_some']
        try dsimp only
        congr 1
        push_cast
        ring
    rw [hhead, htail, ih (i + 1) hnd2, List.length_cons, List.range_succ_eq_map,
      List.map_cons, List.map_map]
    congr 1
    · norm_num
    · apply List.map_congr_left
      intro n _
      simp only [Function.comp]
      congr 1
      push_cast
      ring

/-- C4, amended: provided all normalized names are distinct, the rank pass
is the closed map that gives each row 1 plus the position of its name in
the descending (wins, PF) stable sort: the output keeps the original order
and changes only ranks, and the assigned ranks are exactly 1..N.  With
duplicate normalized names the original claim fails (`rank_pass_cex`). -/
theorem rank_pass_correct (rows : List TeamRow)
    (hnd : (rows.map fun t => normalize_name t.name).Nodup) : RankProp rows := by
  have hclosed := assignRanks_closed rows hnd
  have hperm : List.Perm (sortRows rows) rows := List.perm_insertionSort _ rows
  have hndS : ((sortRows rows).map fun t => normalize_name t.name).Nodup :=
    ((hperm.map _).nodup_iff).2 hnd
  refine ⟨hclosed, ?_, ?_, hperm, ?_⟩
  · rw [hclosed, List.map_map]
    apply List.map_congr_left
    intro t _
    exact eraseRank_rankFromList _ _ t
  · rw [hclosed, List.map_map]
    have h1 : List.Perm
        (rows.map fun t => (rankFromList (sortRows rows) 1 t).rank)
        ((sortRows rows).map fun t => (rankFromList (sortRows rows) 1 t).rank) :=
      (hperm.map _).symm
    rw [rank_list (sortRows rows) 1 hndS] at h1
    have hlen : (sortRows rows).length = rows.length := hperm.length_eq
    have h3 : ((List.range (sortRows rows).length).map fun n : ℕ => some ((1 : ℤ) + (n : ℤ))) =
        (List.range' 1 rows.length).map fun n : ℕ => some ((n : ℕ) : ℤ) := by
      rw [hlen, List.range'_eq_map_range, List.map_map]
      apply List.map_congr_left
      intro n _
      simp only [Function.comp]
      congr 1
      try push_cast
      try ring
    rw [h3] at h1
    exact h1
  · exact List.sorted_insertionSort rankGE rows

theorem rank_pass_correct_witness :
    (([rowAlice, rowBob].map fun t => normalize_name t.name).Nodup) ∧
    RankProp [rowAlice, rowBob] :=
  ⟨by decide, rank_pass_correct [rowAlice, rowBob] (by decide)⟩

unseal Rat.add Rat.mul Rat.sub Rat.inv in
/-- C4 counterexample: the rows named "A" and "a" share the normalized name
"a".  The sorted pass writes rank 1 and then rank 2 both onto the FIRST
row; the second row keeps its stale rank 8, so not every row receives a
rank and the assigned ranks are not the set 1..2. -/
theorem rank_pass_cex :
    (assignRanks [rowA0, rowA1]).map (·.rank) = [some 2, some 8] ∧
    ¬ ((assignRanks [rowA0, rowA1]).map (·.rank) = [some 1, some 2] ∨
       (assignRanks [rowA0, rowA1]).map (·.rank) = [some 2, some 1]) := by
  refine ⟨by decide, by decide⟩

/-! ## Order-(in)dependence of the merge (claim C5) -/

theorem lookupFold_eq (w : ExtRow) :
    ∀ (cs : List String) (m : String → Option ExtRow) (k : String),
      (cs.foldl (fun m2 c => lookupUpdate m2 c w) m) k =
        if k ∈ cs then some w else m k := by
  intro cs
  induction cs with
  | nil => intro m k; simp
  | cons c cs ih =>
    intro m k
    rw [List.foldl_cons, ih]
    by_cases h1 : k ∈ cs
    · rw [if_pos h1, if_pos (List.mem_cons_of_mem c h1)]
    · rw [if_neg h1]
      unfold lookupUpdate
      by_cases h2 : k = c
      · rw [if_pos h2, if_pos (by rw [h2]; exact List.mem_cons_self c cs)]
      · rw [if_neg h2, if_neg ?hn]
        case hn =>
          intro hm
          rcases List.mem_cons.1 hm with h | h
          · exact h2 h
          · exact h1 h

theorem buildLookup_find (ext : List ExtRow) :
    ∀ (m : String → Option ExtRow) (k : String),
      (ext.foldl (fun m w => (candidates w).foldl (fun m2 c => lookupUpdate m2 c w) m) m) k =
        match ext.reverse.find? (hasKeyB k) with
        | some w => some w
        | none => m k := by
  induction ext with
  | nil => intro m k; rfl
  | cons w ws ih =>
    intro m k
    rw [List.foldl_cons, ih, List.reverse_cons, List.find?_append]
    cases hf : ws.reverse.find? (hasKeyB k) with
    | some r => simp [Option.or]
    | none =>
      rw [lookupFold_eq]
      by_cases hk : k ∈ candidates w
      · simp [List.find?, hasKeyB, hk, Option.or]
      · simp [List.find?, hasKeyB, hk, Option.or]

theorem find?_eq_some_unique {α : Type} (p : α → Bool) :
    ∀ (l : List α) (x : α), x ∈ l → p x = true →
      (∀ a ∈ l, ∀ b ∈ l, p a = true → p b = true → a = b) →
      l.find? p = some x := by
  intro l
  induction l with
  | nil => intro x hx _ _; exact absurd hx (List.not_mem_nil x)
  | cons a l ih =>
    intro x hx hpx hu
    by_cases hpa : p a = true
    · have hax : a = x :=
        hu a (List.mem_cons_self a l) x hx hpa hpx
      rw [List.find?_cons_of_pos _ hpa, hax]
    · have hxl : x ∈ l := by
        rcases List.mem_cons.1 hx with rfl | h
        · exact absurd hpx hpa
        · exact h
      rw [List.find?_cons_of_neg _ (by simpa using hpa)]
      exact ih x hxl hpx fun a2 ha2 b hb =>
        hu a2 (List.mem_cons_of_mem _ ha2) b (List.mem_cons_of_mem _ hb)

theorem find?_perm_unique {α : Type} (p : α → Bool) (l l2 : List α) (hp : List.Perm l l2)
    (hu : ∀ a ∈ l, ∀ b ∈ l, p a = true → p b = true → a = b) :
    l.find? p = l2.find? p := by
  cases hf : l2.find? p with
  | none =>
    rw [List.find?_eq_none] at hf ⊢
    intro x hx
    exact hf x (hp.mem_iff.1 hx)
  | some x =>
    have hpx : p x = true := List.find?_some hf
    have hxl : x ∈ l := hp.mem_iff.2 (List.mem_of_find?_eq_some hf)
    exact find?_eq_some_unique p l x hxl hpx hu

theorem keysDisjoint_symm : Symmetric keysDisjoint := by
  intro x y hxy k hky hkx
  exact hxy k hkx hky

theorem disjoint_unique (ext : List ExtRow) (hd : DisjointKeys ext) (k : String) :
    ∀ a ∈ ext, ∀ b ∈ ext, hasKeyB k a = true → hasKeyB k b = true → a = b := by
  intro a ha b hb hka hkb
  by_contra hne
  have hdis : keysDisjoint a b := List.Pairwise.forall keysDisjoint_symm hd ha hb hne
  exact hdis k (of_decide_eq_true hka) (of_decide_eq_true hkb)

theorem buildLookup_perm (ext ext2 : List ExtRow) (hp : List.Perm ext ext2)
    (hd : DisjointKeys ext) : buildLookup ext = buildLookup ext2 := by
  funext k
  have h1 := buildLookup_find ext (fun _ => none) k
  have h2 := buildLookup_find ext2 (fun _ => none) k
  have hrev : List.Perm ext.reverse ext2.reverse :=
    (ext.reverse_perm).trans (hp.trans ext2.reverse_perm.symm)
  have hu : ∀ a ∈ ext.reverse, ∀ b ∈ ext.reverse,
      hasKeyB k a = true → hasKeyB k b = true → a = b := by
    intro a ha b hb
    exact disjoint_unique ext hd k a (List.mem_reverse.1 ha) b (List.mem_reverse.1 hb)
  have hfind := find?_perm_unique (hasKeyB k) ext.reverse ext2.reverse hrev hu
  show (ext.foldl (fun m w => (candidates w).foldl (fun m2 c => lookupUpdate m2 c w) m)
      (fun _ => none)) k =
    (ext2.foldl (fun m w => (candidates w).foldl (fun m2 c => lookupUpdate m2 c w) m)
      (fun _ => none)) k
  rw [h1, h2, hfind]

theorem mergePhase_take (rows : List TeamRow) (ext : List ExtRow) :
    (mergePhase rows ext).take rows.length = rows.map (mergeRow (buildLookup ext)) := by
  show (rows.map (mergeRow (buildLookup ext)) ++
      appendLoop ext (matchedKeys (buildLookup ext) rows)).take rows.length = _
  have hlen : (rows.map (mergeRow (buildLookup ext))).length = rows.length := by simp
  rw [← hlen, List.take_left]

theorem mergePhase_drop (rows : List TeamRow) (ext : List ExtRow) :
    (mergePhase rows ext).drop rows.length =
      appendLoop ext (matchedKeys (buildLookup ext) rows) := by
  show (rows.map (mergeRow (buildLookup ext)) ++
      appendLoop ext (matchedKeys (buildLookup ext) rows)).drop rows.length = _
  have hlen : (rows.map (mergeRow (buildLookup ext))).length = rows.length := by simp
  rw [← hlen, List.drop_left]

/-- C5, amended: when no two external rows share a candidate key, permuting
the external file leaves the merged value of every original snapshot row
unchanged, and the appended block of each run is the `newRow` image of a
file-order selection of its own input.  Without the disjointness hypothesis
the claim fails (`merge_perm_cex`): the lookup dictionary is built by
overwriting, so a later duplicate-key row silently wins. -/
theorem merge_perm_invariant (rows : List TeamRow) (ext ext2 : List ExtRow)
    (hp : List.Perm ext ext2) (hd : DisjointKeys ext) : MergePermProp rows ext ext2 := by
  have hL : buildLookup ext = buildLookup ext2 := buildLookup_perm ext ext2 hp hd
  refine ⟨?_, ?_, ?_⟩
  · rw [mergePhase_take, mergePhase_take, hL]
  · obtain ⟨sub, hs, he⟩ := appendLoop_sublist ext (matchedKeys (buildLookup ext) rows)
    exact ⟨sub, hs, by rw [mergePhase_drop, he]⟩
  · obtain ⟨sub, hs, he⟩ := appendLoop_sublist ext2 (matchedKeys (buildLookup ext2) rows)
    exact ⟨sub, hs, by rw [mergePhase_drop, he]⟩

theorem merge_perm_invariant_witness :
    DisjointKeys [extGoodFoo, extBar] ∧
    MergePermProp (buildRows zeroTally [apiFoo]) [extGoodFoo, extBar] [extBar, extGoodFoo] :=
  ⟨by decide,
   merge_perm_invariant _ _ _ (List.Perm.swap extBar extGoodFoo []) (by decide)⟩

unseal Rat.add Rat.mul Rat.sub Rat.inv in
/-- C5 counterexample: the rows `extFoo1` and `extFoo2` share the candidate
key "foo".  With file order `[extFoo1, extFoo2]` the snapshot row for Foo
absorbs 2 points-for, with the swapped (permuted) order it absorbs 1: the
merged field values depend on external-row ordering. -/
theorem merge_perm_cex :
    List.Perm [extFoo1, extFoo2] [extFoo2, extFoo1] ∧
    ((mergePhase (buildRows zeroTally [apiFoo]) [extFoo1, extFoo2]).getD 0 dummyRow).pf = 2 ∧
    ((mergePhase (buildRows zeroTally [apiFoo]) [extFoo2, extFoo1]).getD 0 dummyRow).pf = 1 := by
  refine ⟨List.Perm.swap extFoo2 extFoo1 [], by decide, by decide⟩
